import Mathlib

/-!
# Pose replay viewer: rendering and playback

A shallow embedding of `frontend/src/components/PoseReplayViewer.jsx`, and of the hooks
`frontend/src/hooks/useVideoValidation.js` and `frontend/src/hooks/useJobResult.js` and of
the store `frontend/src/stores/userStore.js`.

* Numbers are rationals; a comparison of two JavaScript numbers is exact, so
  `ac > 0.3` is the order of `ℚ` against `3/10`.
* The 2D context is a write-only device for `drawPose`: the embedding returns the
  list of context calls in the order they are made.
* A destructuring that fails is a thrown `TypeError`, the `error` of `Except`.
-/

namespace PoseReplay

/-! ## Values read from a frame -/

/-- The value stored under one joint name of a `keypoints` object. -/
inductive Entry where
  /-- Stored value that is falsy: `null`, `0`, `false`, `""`. -/
  | falsy
  /-- An array of numbers, of any length. -/
  | arr (xs : List ℚ)
  /-- Stored value that is truthy and not iterable: a non-zero number, `true`, a plain object. -/
  | scalar
  deriving DecidableEq, Repr

/-- The `keypoints` object of a frame: `none` is a property that is not there (`undefined`). -/
abbrev Keypoints := String → Option Entry

/-- The `jumpEvent` object. -/
structure JumpEvent where
  takeoff_frame : ℤ
  landing_frame : ℤ
  deriving DecidableEq, Repr

/-- Errors a call can throw. -/
inductive JsError where
  | typeError
  deriving DecidableEq, Repr

deriving instance DecidableEq for Except

/-- One call on (or assignment to) the 2D drawing context. A coordinate that is `none` is
`undefined`, read from a position past the end of an array. -/
inductive CanvasOp where
  | clearRect (x y w h : ℚ)
  | beginPath
  | moveTo (x y : Option ℚ)
  | lineTo (x y : Option ℚ)
  | setStrokeStyle (s : String)
  | setLineWidth (w : ℚ)
  | stroke
  /-- With `arc x y r start turns` the end angle is `turns * Math.PI`. -/
  | arc (x y : Option ℚ) (r start turns : ℚ)
  | setFillStyle (s : String)
  | fill
  | fillRect (x y w h : ℚ)
  | setFont (s : String)
  | fillText (s : String) (x y : ℚ)
  deriving DecidableEq, Repr

/-! ## Constants -/

def CONNECTIONS : List (ℕ × ℕ) :=
  [ (5, 6), (5, 7), (7, 9), (6, 8), (8, 10),
    (5, 11), (6, 12), (11, 12),
    (11, 13), (13, 15), (12, 14), (14, 16),
    (0, 1), (0, 2), (1, 3), (2, 4) ]

def KEYPOINT_NAMES : List String :=
  [ "nose", "left_eye", "right_eye", "left_ear", "right_ear",
    "left_shoulder", "right_shoulder", "left_elbow", "right_elbow",
    "left_wrist", "right_wrist", "left_hip", "right_hip",
    "left_knee", "right_knee", "left_ankle", "right_ankle" ]

/-- The literal `0.3` of the two confidence tests. -/
def CONF_THRESHOLD : ℚ := 3 / 10

/-! ## drawPose -/

/-- The test `v > t` on a value that may be `undefined`: `undefined > t` is false. -/
def jsGt (v : Option ℚ) (t : ℚ) : Bool :=
  match v with
  | some q => decide (t < q)
  | none => false

/-- The expression `keypoints[n] || [0, 0, 0]`. -/
def orZero (v : Option Entry) : Entry :=
  match v with
  | none => .arr [0, 0, 0]
  | some .falsy => .arr [0, 0, 0]
  | some e => e

/-- The array `pts = KEYPOINT_NAMES.map(n => keypoints[n] || [0, 0, 0])`. -/
def mkPts (keypoints : Keypoints) : List Entry :=
  KEYPOINT_NAMES.map (fun n => orZero (keypoints n))

/-- The pattern `[x, y, c] = v`: `v` has to be iterable; `none` is `undefined` (what
`pts[a]` is for an index past the end), which is not. -/
def destructure3 (v : Option Entry) : Except JsError (Option ℚ × Option ℚ × Option ℚ) :=
  match v with
  | some (.arr xs) => .ok (xs[0]?, xs[1]?, xs[2]?)
  | _ => .error .typeError

/-- The calls that stroke one segment (lines 28-33). -/
def segmentOps (ax ay bx by' : Option ℚ) : List CanvasOp :=
  [.beginPath, .moveTo ax ay, .lineTo bx by', .setStrokeStyle "#0ea5e9", .setLineWidth 2,
    .stroke]

/-- The callback of `CONNECTIONS.forEach` (lines 24-35). -/
def drawConnection (pts : List Entry) (p : ℕ × ℕ) : Except JsError (List CanvasOp) :=
  match destructure3 pts[p.1]? with
  | .error e => .error e
  | .ok (ax, ay, ac) =>
    match destructure3 pts[p.2]? with
    | .error e => .error e
    | .ok (bx, by', bc) =>
      if jsGt ac CONF_THRESHOLD && jsGt bc CONF_THRESHOLD then
        .ok (segmentOps ax ay bx by')
      else
        .ok []

/-- The calls that fill one marker (lines 40-43). -/
def markerOps (x y : Option ℚ) : List CanvasOp :=
  [.beginPath, .arc x y 4 0 2, .setFillStyle "#38bdf8", .fill]

/-- The callback of `pts.forEach` (lines 38-45). -/
def drawKeypoint (e : Entry) : Except JsError (List CanvasOp) :=
  match destructure3 (some e) with
  | .error err => .error err
  | .ok (x, y, conf) =>
    if jsGt conf CONF_THRESHOLD && jsGt x 0 && jsGt y 0 then
      .ok (markerOps x y)
    else
      .ok []

/-- `xs.forEach(f)` for a callback that draws: the calls of each element in turn, stopping
at the first throw. -/
def forEach {α : Type} (f : α → Except JsError (List CanvasOp)) :
    List α → Except JsError (List CanvasOp)
  | [] => .ok []
  | x :: xs =>
    match f x with
    | .error e => .error e
    | .ok here =>
      match forEach f xs with
      | .error e => .error e
      | .ok later => .ok (here ++ later)

/-- The calls of the flight overlay (lines 51-55). -/
def overlayOps (width height : ℚ) : List CanvasOp :=
  [.setFillStyle "rgba(14, 165, 233, 0.12)", .fillRect 0 0 width height,
    .setFillStyle "#0ea5e9", .setFont "12px monospace", .fillText "AIRBORNE" 8 16]

/-- The block `if (jumpEvent) { ... }` (lines 48-57). -/
def drawHighlight (width height : ℚ) (jumpEvent : Option JumpEvent) (frameIdx : ℤ) :
    List CanvasOp :=
  match jumpEvent with
  | none => []
  | some ev =>
    let inFlight := decide (frameIdx ≥ ev.takeoff_frame) && decide (frameIdx ≤ ev.landing_frame)
    if inFlight then overlayOps width height else []

/-- The function `drawPose(ctx, keypoints, width, height, jumpEvent, frameIdx)`: the calls
made on `ctx`, or the error thrown. `keypoints = none` is a falsy `keypoints`. -/
def drawPose (keypoints : Option Keypoints) (width height : ℚ) (jumpEvent : Option JumpEvent)
    (frameIdx : ℤ) : Except JsError (List CanvasOp) :=
  match keypoints with
  | none => .ok [.clearRect 0 0 width height]
  | some kp =>
    let pts := mkPts kp
    match forEach (drawConnection pts) CONNECTIONS with
    | .error e => .error e
    | .ok segments =>
      match forEach drawKeypoint pts with
      | .error e => .error e
      | .ok markers =>
        .ok (.clearRect 0 0 width height :: (segments ++ markers ++
          drawHighlight width height jumpEvent frameIdx))

/-! ## Keypoints of the data model -/

/-- A keypoints map as the data model has it: each joint name is omitted or holds a triple
`(x, y, confidence)`. -/
abbrev JointMap := String → Option (ℚ × ℚ × ℚ)

/-- The `keypoints` object of a joint map: a held triple is a 3-element array. -/
def JointMap.toKeypoints (m : JointMap) : Keypoints :=
  fun n => (m n).map fun t => Entry.arr [t.1, t.2.1, t.2.2]

/-- The name of joint number `i`, `KEYPOINT_NAMES[i]`. -/
def jointName (i : ℕ) : String := KEYPOINT_NAMES.getD i ""

/-- Joint number `i` of a joint map, an omitted joint read as `(0, 0, 0)`. -/
def JointMap.joint (m : JointMap) (i : ℕ) : ℚ × ℚ × ℚ := (m (jointName i)).getD (0, 0, 0)

/-- The `keypoints` object with every omitted joint name set to `[0, 0, 0]`. -/
def fillOmitted (kp : Keypoints) : Keypoints :=
  fun n => match kp n with
    | none => some (.arr [0, 0, 0])
    | some e => some e

/-- An example joint map: a left shoulder with confidence 1.5 beside a right shoulder with
confidence 0.9, every other joint omitted. -/
def overconfidentShoulder : JointMap := fun n =>
  if n = "left_shoulder" then some (10, 20, 3 / 2)
  else if n = "right_shoulder" then some (30, 20, 9 / 10)
  else none

/-- An example `keypoints` object: the number 5 stored under `nose`, no other joint. -/
def scalarNose : Keypoints := fun n => if n = "nose" then some .scalar else none

/-- The segments the specification gives a joint map (rule 2 of its renderer): one for each
topology pair, in order, whose two confidences both exceed 0.3. -/
def specSegments (m : JointMap) : List CanvasOp :=
  (CONNECTIONS.filter fun p =>
      decide (3 / 10 < (m.joint p.1).2.2 ∧ 3 / 10 < (m.joint p.2).2.2)).flatMap
    fun p => segmentOps (some (m.joint p.1).1) (some (m.joint p.1).2.1)
      (some (m.joint p.2).1) (some (m.joint p.2).2.1)

/-- The markers the specification gives a joint map (rule 3 of its renderer): one for each
joint, in order, whose confidence exceeds 0.3 and whose coordinates are both positive. -/
def specMarkers (m : JointMap) : List CanvasOp :=
  ((List.range 17).filter fun i =>
      decide (3 / 10 < (m.joint i).2.2 ∧ 0 < (m.joint i).1 ∧ 0 < (m.joint i).2.1)).flatMap
    fun i => markerOps (some (m.joint i).1) (some (m.joint i).2.1)

/-- A call returned, and the drawing ends with the flight overlay. -/
def showsOverlay (width height : ℚ) (r : Except JsError (List CanvasOp)) : Prop :=
  ∃ ops, r = .ok ops ∧ overlayOps width height <:+ ops

/-- A call returned, and the drawing has no `fillRect` and no `fillText`. -/
def noOverlay (r : Except JsError (List CanvasOp)) : Prop :=
  ∃ ops, r = .ok ops ∧
    ∀ op ∈ ops, (∀ x y a b, op ≠ .fillRect x y a b) ∧ ∀ s x y, op ≠ .fillText s x y

/-- One entry of the prop `poseFrames`, as far as the viewer reads it. -/
structure PoseFrame where
  frame_idx : ℤ
  timestamp_ms : ℚ
  keypoints : Option Keypoints

/-- The render effect (lines 68-73) with the canvas in place: nothing is drawn when
`poseFrames[currentFrame]` is missing; else `drawPose` is called with the keypoints and the
`frame_idx` of that frame, on the canvas of 360 by 640 (lines 111-112). -/
def renderEffect (poseFrames : List PoseFrame) (currentFrame : ℤ)
    (jumpEvent : Option JumpEvent) : Option (Except JsError (List CanvasOp)) :=
  if currentFrame < 0 then none
  else
    match poseFrames[currentFrame.toNat]? with
    | none => none
    | some frame => some (drawPose frame.keypoints 360 640 jumpEvent frame.frame_idx)

/-- An example sequence: three frames sampled from a video, with `frame_idx` 0, 10 and 20
and no joint detected. -/
def sampledFrames : List PoseFrame :=
  [ { frame_idx := 0, timestamp_ms := 0, keypoints := some (JointMap.toKeypoints fun _ => none) },
    { frame_idx := 10, timestamp_ms := 333,
      keypoints := some (JointMap.toKeypoints fun _ => none) },
    { frame_idx := 20, timestamp_ms := 667,
      keypoints := some (JointMap.toKeypoints fun _ => none) } ]

/-! ## Playback -/

def FPS : ℚ := 30

/-- The constant `interval = 1000 / FPS` of the playback effect, in milliseconds. -/
def interval : ℚ := 1000 / FPS

/-- A mounted viewer: the length of the prop `poseFrames`, the two state cells, and the
variable `lastTime` of the current run of the playback effect. -/
structure Viewer where
  totalFrames : ℕ
  currentFrame : ℤ
  playing : Bool
  lastTime : ℚ
  deriving DecidableEq, Repr

/-- The viewer as first rendered: `useState(0)`, `useState(false)`. -/
def mount (totalFrames : ℕ) : Viewer :=
  { totalFrames := totalFrames, currentFrame := 0, playing := false, lastTime := 0 }

/-- The updater given to `setCurrentFrame` in `tick` (lines 88-94): the next frame, and
whether `setPlaying(false)` is called. -/
def advance (totalFrames : ℕ) (f : ℤ) : ℤ × Bool :=
  if f ≥ (totalFrames : ℤ) - 1 then (0, true) else (f + 1, false)

/-- The callback `tick(timestamp)` (lines 85-97) of a running playback effect. -/
def tick (v : Viewer) (timestamp : ℚ) : Viewer :=
  if timestamp - v.lastTime ≥ interval then
    let next := advance v.totalFrames v.currentFrame
    { v with
      lastTime := timestamp
      currentFrame := next.1
      playing := if next.2 then false else v.playing }
  else
    v

/-- The click handler of the button, `setPlaying(p => !p)` (line 131). When `playing` turns
true the playback effect starts a run, with `lastTime = 0` (line 81). -/
def togglePlaying (v : Viewer) : Viewer :=
  { v with playing := !v.playing, lastTime := if v.playing then v.lastTime else 0 }

/-- The change handler of the scrub input (line 123):
`setCurrentFrame(Number(e.target.value)); setPlaying(false)`. -/
def onScrub (v : Viewer) (value : ℤ) : Viewer :=
  { v with currentFrame := value, playing := false }

/-- A move of the scrub input to a position. The input shows `currentFrame` (line 122):
a move to the position it already shows fires no change event and nothing runs; any other
move runs the change handler with the new position, which it stores as it is. -/
def seek (v : Viewer) (target : ℤ) : Viewer :=
  if target = v.currentFrame then v else onScrub v target

/-- A render with a new `poseFrames` prop, of length `n`: the state cells keep their values;
a changed `totalFrames` while playing restarts the playback effect (its dependency list,
line 100), and with it `lastTime`. -/
def setPoseFrames (v : Viewer) (n : ℕ) : Viewer :=
  { v with totalFrames := n, lastTime := if v.playing ∧ n ≠ v.totalFrames then 0 else v.lastTime }

/-- What can happen to a mounted viewer. -/
inductive Event where
  /-- A click on the play/pause button. -/
  | click
  /-- A move of the scrub input to a position. -/
  | scrub (target : ℤ)
  /-- An animation frame of the host, with its timestamp. -/
  | frame (timestamp : ℚ)
  /-- A new `poseFrames` prop of the given length. -/
  | newFrames (n : ℕ)
  deriving DecidableEq, Repr

/-- One event. The button and the scrub input exist only when `poseFrames` is not empty
(line 102); `tick` is scheduled only while `playing` (lines 76-79). -/
def step (v : Viewer) : Event → Viewer
  | .click => if v.totalFrames = 0 then v else togglePlaying v
  | .scrub target => if v.totalFrames = 0 then v else seek v target
  | .frame timestamp => if v.playing then tick v timestamp else v
  | .newFrames n => setPoseFrames v n

/-- A sequence of events, in order. -/
def run (v : Viewer) (events : List Event) : Viewer := events.foldl step v

/-- The timestamps, among those of the animation frames delivered in order to a viewer,
of the frames that change its state: the accepted ticks. -/
def acceptedTicks (v : Viewer) : List ℚ → List ℚ
  | [] => []
  | t :: ts =>
    if step v (.frame t) = v then acceptedTicks v ts
    else t :: acceptedTicks (step v (.frame t)) ts

/-- The values of `currentFrame` after each accepted tick, in order. -/
def visited (v : Viewer) : List ℚ → List ℤ
  | [] => []
  | t :: ts =>
    if step v (.frame t) = v then visited v ts
    else (step v (.frame t)).currentFrame :: visited (step v (.frame t)) ts

/-- The content of the state cell `currentFrame` as a JavaScript value, `none` being
`undefined`: the cell only ever receives numbers (lines 62, 91, 93, 123). -/
def Viewer.currentFrameValue (v : Viewer) : Option ℤ := some v.currentFrame

/-! ## Video validation (`hooks/useVideoValidation.js`) -/

def MIN_WIDTH : ℕ := 854

def MIN_HEIGHT : ℕ := 480

def MAX_DURATION_SEC : ℚ := 60

def MIN_DURATION_SEC : ℚ := 1 / 2

def SUPPORTED_FORMATS : List String :=
  ["video/mp4", "video/quicktime", "video/avi", "video/webm"]

def MAX_SIZE_MB : ℚ := 500

/-- What `validate` reads of a `File`: its size in bytes and its MIME type. -/
structure VideoFile where
  size : ℕ
  type : String
  deriving DecidableEq, Repr

/-- What `validate` reads of the video element once its metadata has loaded; the duration is
in seconds. -/
structure VideoMetadata where
  videoWidth : ℕ
  videoHeight : ℕ
  duration : ℚ
  deriving DecidableEq, Repr

/-- What the video element does with the file: it fires `loadedmetadata` or `error`. -/
inductive VideoLoad where
  | loadedmetadata (video : VideoMetadata)
  | error
  deriving DecidableEq, Repr

/-- The messages of `validate`, each by its template with the values it interpolates. -/
inductive ValidationMessage where
  /-- `No file provided.` -/
  | noFile
  /-- `File too large: ... MB (max 500 MB)` -/
  | fileTooLarge (sizeMb : ℚ)
  /-- `Unsupported format: ... Use MP4, MOV, AVI, or WebM.` -/
  | unsupportedFormat (type : String)
  /-- `Resolution too low: w×h. Minimum: 480p (854×480).` -/
  | resolutionTooLow (w h : ℕ)
  /-- `Video too short: ...s. Minimum: 0.5s.` -/
  | tooShort (duration : ℚ)
  /-- `Long video: ...s. Processing may take a while.` -/
  | longVideo (duration : ℚ)
  /-- `Could not read video file. It may be corrupted.` -/
  | unreadable
  deriving DecidableEq, Repr

/-- The object `{ ok, errors, warnings }` the promise resolves with. -/
structure ValidationResult where
  ok : Bool
  errors : List ValidationMessage
  warnings : List ValidationMessage
  deriving DecidableEq, Repr

/-- The function `validate(file)` (lines 17-77), by the value its promise resolves with;
`file = none` is a falsy `file`. -/
def validate (file : Option VideoFile) (load : VideoLoad) : ValidationResult :=
  match file with
  | none => { ok := false, errors := [.noFile], warnings := [] }
  | some file =>
    let sizeMb : ℚ := (file.size : ℚ) / (1024 * 1024)
    let errors : List ValidationMessage :=
      if sizeMb > MAX_SIZE_MB then [.fileTooLarge sizeMb] else []
    let errors :=
      if SUPPORTED_FORMATS.contains file.type then errors
      else errors ++ [.unsupportedFormat file.type]
    match load with
    | .loadedmetadata video =>
      let w := video.videoWidth
      let h := video.videoHeight
      let duration := video.duration
      let effectiveW := max w h
      let effectiveH := min w h
      let errors :=
        if effectiveH < MIN_HEIGHT ∨ effectiveW < MIN_WIDTH then
          errors ++ [.resolutionTooLow w h]
        else errors
      let errors :=
        if duration < MIN_DURATION_SEC then errors ++ [.tooShort duration] else errors
      let warnings : List ValidationMessage :=
        if duration > MAX_DURATION_SEC then [.longVideo duration] else []
      { ok := decide (errors.length = 0), errors := errors, warnings := warnings }
    | .error =>
      { ok := false, errors := errors ++ [.unreadable], warnings := [] }

/-! ## Job polling (`hooks/useJobResult.js`) -/

def POLL_INTERVAL_MS : ℕ := 2000

def MAX_POLLS : ℕ := 120

/-- The answer of `api.getJobStatus`, as far as `poll` reads it; a field that is `none` is
missing. -/
structure Job where
  status : String
  step : Option String
  error : Option String
  deriving DecidableEq, Repr

/-- The state of the hook `useJobResult` during one run of its effect: the five state
cells, the counter `pollCount.current`, the delay of the timeout that is pending (if one is)
and the flag `cancelled`. The result document is kept as text. -/
structure JobHook where
  data : Option String
  status : String
  step : String
  isLoading : Bool
  error : Option String
  pollCount : ℕ
  timer : Option ℕ
  cancelled : Bool
  deriving DecidableEq, Repr

/-- The hook as first rendered (lines 12-17), its effect started. -/
def JobHook.initial : JobHook :=
  { data := none, status := "pending", step := "queued", isLoading := true, error := none,
    pollCount := 0, timer := none, cancelled := false }

/-- The expression `a || b` on a string that may be missing: the empty string is falsy. -/
def orElse (a : Option String) (b : String) : String :=
  match a with
  | some s => if s = "" then b else s
  | none => b

/-- One call of `poll()` (lines 25-55), given what the two requests answer: `job` for
`api.getJobStatus` and `result` for `api.getResult`, a rejection being an `error` with its
message. The timeout that started the call is no longer pending. -/
def poll (s : JobHook) (job : Except String Job) (result : Except String String) : JobHook :=
  let s := { s with timer := none }
  match job with
  | .error message =>
    if s.cancelled then s else { s with error := some message, isLoading := false }
  | .ok job =>
    if s.cancelled then s
    else
      let s := { s with status := job.status, step := orElse job.step "" }
      if job.status = "done" then
        match result with
        | .ok r => { s with data := some r, isLoading := false }
        | .error message => { s with error := some message, isLoading := false }
      else if job.status = "failed" then
        { s with error := some (orElse job.error "Analysis failed."), isLoading := false }
      else if s.pollCount < MAX_POLLS then
        { s with pollCount := s.pollCount + 1, timer := some POLL_INTERVAL_MS }
      else
        { s with error := some "Analysis timed out. Please try again.", isLoading := false }

/-- The polling of a job whose successive status answers are `jobs`: a call of `poll` for
each answer for as long as the call before left a timeout pending. Returned are the final
state, the number of status requests made and the delays of the timeouts set, in order. -/
def pollLoop (s : JobHook) (result : Except String String) :
    List (Except String Job) → JobHook × ℕ × List ℕ
  | [] => (s, 0, [])
  | job :: jobs =>
    let s' := poll s job result
    match s'.timer with
    | none => (s', 1, [])
    | some delay =>
      let rest := pollLoop s' result jobs
      (rest.1, rest.2.1 + 1, delay :: rest.2.2)

/-- A status answer that keeps the job going: neither `done` nor `failed`. -/
def Job.running (job : Job) : Prop := job.status ≠ "done" ∧ job.status ≠ "failed"

/-! ## User store (`stores/userStore.js`) -/

/-- The state of the store; job ids are strings. -/
structure UserStore where
  userId : String
  displayName : String
  recentJobIds : List String
  deriving DecidableEq, Repr

/-- The store as created (lines 7-9). -/
def UserStore.initial : UserStore :=
  { userId := "anonymous", displayName := "", recentJobIds := [] }

/-- The action `addJobId(jobId)` (lines 14-18):
`[jobId, ...existing.filter(id => id !== jobId)].slice(0, 20)`. -/
def addJobId (store : UserStore) (jobId : String) : UserStore :=
  let existing := store.recentJobIds
  let updated := (jobId :: existing.filter (fun id => id != jobId)).take 20
  { store with recentJobIds := updated }

/-! ## Lemmas on drawing -/

theorem forEach_ok {α : Type} (f : α → Except JsError (List CanvasOp)) (g : α → List CanvasOp)
    (xs : List α) (hf : ∀ x ∈ xs, f x = .ok (g x)) : forEach f xs = .ok (xs.flatMap g) := by
  induction xs with
  | nil => rfl
  | cons x xs ih =>
    have hx : f x = .ok (g x) := hf x (List.mem_cons_self x xs)
    have hxs : forEach f xs = .ok (xs.flatMap g) :=
      ih (fun y hy => hf y (List.mem_cons_of_mem x hy))
    simp [forEach, hx, hxs]

theorem flatMap_filter {α β : Type} (p : α → Bool) (f : α → List β) (xs : List α) :
    (xs.filter p).flatMap f = xs.flatMap (fun x => if p x then f x else []) := by
  induction xs with
  | nil => rfl
  | cons x xs ih =>
    by_cases hp : p x <;> simp [List.filter_cons, hp, ih]

/-- The array a joint-map entry becomes in `pts`. -/
theorem orZero_toKeypoints (m : JointMap) (n : String) :
    orZero (m.toKeypoints n) =
      .arr [((m n).getD (0, 0, 0)).1, ((m n).getD (0, 0, 0)).2.1, ((m n).getD (0, 0, 0)).2.2] := by
  unfold JointMap.toKeypoints
  cases m n <;> simp [orZero]

theorem mkPts_toKeypoints (m : JointMap) :
    mkPts m.toKeypoints = (List.range 17).map
      (fun i => Entry.arr [(m.joint i).1, (m.joint i).2.1, (m.joint i).2.2]) := by
  simp [mkPts, orZero_toKeypoints, KEYPOINT_NAMES, List.range, List.range.loop, JointMap.joint, jointName]

theorem mkPts_toKeypoints_get (m : JointMap) (i : ℕ) (hi : i < 17) :
    (mkPts m.toKeypoints)[i]? =
      some (Entry.arr [(m.joint i).1, (m.joint i).2.1, (m.joint i).2.2]) := by
  rw [mkPts_toKeypoints, List.getElem?_map, List.getElem?_range hi]
  rfl

theorem CONNECTIONS_lt : ∀ p ∈ CONNECTIONS, p.1 < 17 ∧ p.2 < 17 := by decide


theorem drawKeypoint_arr3 (x y c : ℚ) :
    drawKeypoint (.arr [x, y, c]) =
      .ok (if 3 / 10 < c ∧ 0 < x ∧ 0 < y then markerOps (some x) (some y) else []) := by
  by_cases hc : 3 / 10 < c <;> by_cases hx : 0 < x <;> by_cases hy : 0 < y <;>
    simp [drawKeypoint, destructure3, jsGt, CONF_THRESHOLD, hc, hx, hy]

theorem drawConnection_toKeypoints (m : JointMap) (p : ℕ × ℕ) (hp : p ∈ CONNECTIONS) :
    drawConnection (mkPts m.toKeypoints) p =
      .ok (if 3 / 10 < (m.joint p.1).2.2 ∧ 3 / 10 < (m.joint p.2).2.2 then
          segmentOps (some (m.joint p.1).1) (some (m.joint p.1).2.1)
            (some (m.joint p.2).1) (some (m.joint p.2).2.1)
        else []) := by
  obtain ⟨h1, h2⟩ := CONNECTIONS_lt p hp
  by_cases ha : 3 / 10 < (m.joint p.1).2.2 <;> by_cases hb : 3 / 10 < (m.joint p.2).2.2 <;>
    simp [drawConnection, mkPts_toKeypoints_get m _ h1, mkPts_toKeypoints_get m _ h2,
      destructure3, jsGt, CONF_THRESHOLD, ha, hb]

theorem drawPose_toKeypoints (m : JointMap) (w h : ℚ) (ev : Option JumpEvent) (idx : ℤ) :
    drawPose (some m.toKeypoints) w h ev idx =
      .ok (.clearRect 0 0 w h :: (specSegments m ++ specMarkers m ++ drawHighlight w h ev idx)) := by
  have hs : forEach (drawConnection (mkPts m.toKeypoints)) CONNECTIONS = .ok (specSegments m) := by
    rw [specSegments, flatMap_filter]
    apply forEach_ok
    intro p hp
    rw [drawConnection_toKeypoints m p hp]
    simp
  have hm : forEach drawKeypoint (mkPts m.toKeypoints) = .ok (specMarkers m) := by
    rw [specMarkers, flatMap_filter, mkPts_toKeypoints]
    rw [forEach_ok drawKeypoint (fun e => match e with
      | .arr [x, y, c] => if 3 / 10 < c ∧ 0 < x ∧ 0 < y then markerOps (some x) (some y) else []
      | _ => [])]
    · simp [List.flatMap_map]
    · intro e he
      simp only [List.mem_map] at he
      obtain ⟨i, -, rfl⟩ := he
      rw [drawKeypoint_arr3]
  simp [drawPose, hs, hm]


theorem mem_segmentOps_no_fill (ax ay bx by' : Option ℚ) (op : CanvasOp)
    (h : op ∈ segmentOps ax ay bx by') :
    op ≠ .fill ∧ (∀ x y r s t, op ≠ .arc x y r s t) ∧ (∀ x y a b, op ≠ .fillRect x y a b) ∧
      ∀ s x y, op ≠ .fillText s x y := by
  simp only [segmentOps, List.mem_cons, List.mem_singleton, List.not_mem_nil, or_false] at h
  rcases h with h | h | h | h | h | h <;> subst h <;> simp

theorem mem_markerOps_no_stroke (mx my : Option ℚ) (op : CanvasOp) (h : op ∈ markerOps mx my) :
    op ≠ .stroke ∧ (∀ x y, op ≠ .moveTo x y) ∧ (∀ x y, op ≠ .lineTo x y) ∧
      (∀ x y a b, op ≠ .fillRect x y a b) ∧ ∀ s x y, op ≠ .fillText s x y := by
  simp only [markerOps, List.mem_cons, List.mem_singleton, List.not_mem_nil, or_false] at h
  rcases h with h | h | h | h <;> subst h <;> simp

theorem mem_overlayOps_no_path (w h : ℚ) (op : CanvasOp) (hop : op ∈ overlayOps w h) :
    op ≠ .stroke ∧ (∀ x y, op ≠ .moveTo x y) ∧ (∀ x y, op ≠ .lineTo x y) ∧
      op ≠ .fill ∧ ∀ x y r s t, op ≠ .arc x y r s t := by
  simp only [overlayOps, List.mem_cons, List.mem_singleton, List.not_mem_nil, or_false] at hop
  rcases hop with h | h | h | h | h <;> subst h <;> simp

theorem mem_drawHighlight (w h : ℚ) (ev : Option JumpEvent) (idx : ℤ) (op : CanvasOp)
    (hop : op ∈ drawHighlight w h ev idx) : op ∈ overlayOps w h := by
  cases ev with
  | none => simp [drawHighlight] at hop
  | some e =>
    simp only [drawHighlight] at hop
    split at hop
    · exact hop
    · simp at hop

theorem mem_specSegments (m : JointMap) (op : CanvasOp) (h : op ∈ specSegments m) :
    ∃ ax ay bx by', op ∈ segmentOps ax ay bx by' := by
  simp only [specSegments, List.mem_flatMap] at h
  obtain ⟨p, -, hp⟩ := h
  exact ⟨_, _, _, _, hp⟩

theorem mem_specMarkers (m : JointMap) (op : CanvasOp) (h : op ∈ specMarkers m) :
    ∃ x y, op ∈ markerOps x y := by
  simp only [specMarkers, List.mem_flatMap] at h
  obtain ⟨i, -, hi⟩ := h
  exact ⟨_, _, hi⟩

/-! ## Claims on drawing -/

/-- C1: for a keypoints map of the data model and a topology pair `(a, b)`, `drawPose` strokes
the segment from joint `a` to joint `b` if and only if both confidences are strictly above
0.3, and a confidence of exactly 0.3 at either end gives no segment; the drawing is the
clear, then the segments of exactly those pairs, then calls none of which belongs to a
stroked path. -/
theorem drawPose_segment_iff (m : JointMap) (w h : ℚ) (ev : Option JumpEvent) (idx : ℤ) :
    (∀ p ∈ CONNECTIONS,
      (drawConnection (mkPts m.toKeypoints) p =
          .ok (segmentOps (some (m.joint p.1).1) (some (m.joint p.1).2.1)
            (some (m.joint p.2).1) (some (m.joint p.2).2.1)) ↔
        3 / 10 < (m.joint p.1).2.2 ∧ 3 / 10 < (m.joint p.2).2.2) ∧
      (drawConnection (mkPts m.toKeypoints) p = .ok [] ↔
        ¬ (3 / 10 < (m.joint p.1).2.2 ∧ 3 / 10 < (m.joint p.2).2.2)) ∧
      ((m.joint p.1).2.2 = 3 / 10 ∨ (m.joint p.2).2.2 = 3 / 10 →
        drawConnection (mkPts m.toKeypoints) p = .ok [])) ∧
    ∃ rest, drawPose (some m.toKeypoints) w h ev idx =
        .ok (.clearRect 0 0 w h :: (specSegments m ++ rest)) ∧
      ∀ op ∈ rest, op ≠ .stroke ∧ (∀ x y, op ≠ .moveTo x y) ∧ ∀ x y, op ≠ .lineTo x y := by
  refine ⟨?_, specMarkers m ++ drawHighlight w h ev idx, ?_, ?_⟩
  · intro p hp
    rw [drawConnection_toKeypoints m p hp]
    by_cases hc : 3 / 10 < (m.joint p.1).2.2 ∧ 3 / 10 < (m.joint p.2).2.2
    · have h1 := hc.1.ne'
      have h2 := hc.2.ne'
      simp [hc, segmentOps, h1, h2]
    · refine ⟨?_, ?_, ?_⟩
      · simp [hc, segmentOps]
      · simp [hc]
      · intro _; simp [hc]
  · rw [drawPose_toKeypoints, List.append_assoc]
  · intro op hop
    rcases List.mem_append.1 hop with hm | hh
    · obtain ⟨x, y, hxy⟩ := mem_specMarkers m op hm
      have := mem_markerOps_no_stroke x y op hxy
      exact ⟨this.1, this.2.1, this.2.2.1⟩
    · have := mem_overlayOps_no_path w h op (mem_drawHighlight w h ev idx op hh)
      exact ⟨this.1, this.2.1, this.2.2.1⟩


/-- C5: for a keypoints map of the data model and each of the 17 joints, `drawPose` fills a
marker at `(x, y)` if and only if the confidence is strictly above 0.3 and both `x > 0` and
`y > 0` (a joint on an axis or at the origin gets none); the drawing is calls without a
filled arc, then the markers of exactly those joints, then calls without a filled arc. -/
theorem drawPose_marker_iff (m : JointMap) (w h : ℚ) (ev : Option JumpEvent) (idx : ℤ) :
    (∀ i < 17,
      (mkPts m.toKeypoints)[i]? =
        some (.arr [(m.joint i).1, (m.joint i).2.1, (m.joint i).2.2]) ∧
      (drawKeypoint (.arr [(m.joint i).1, (m.joint i).2.1, (m.joint i).2.2]) =
          .ok (markerOps (some (m.joint i).1) (some (m.joint i).2.1)) ↔
        3 / 10 < (m.joint i).2.2 ∧ 0 < (m.joint i).1 ∧ 0 < (m.joint i).2.1) ∧
      (drawKeypoint (.arr [(m.joint i).1, (m.joint i).2.1, (m.joint i).2.2]) = .ok [] ↔
        ¬ (3 / 10 < (m.joint i).2.2 ∧ 0 < (m.joint i).1 ∧ 0 < (m.joint i).2.1)) ∧
      ((m.joint i).1 = 0 ∨ (m.joint i).2.1 = 0 →
        drawKeypoint (.arr [(m.joint i).1, (m.joint i).2.1, (m.joint i).2.2]) = .ok [])) ∧
    ∃ pre post, drawPose (some m.toKeypoints) w h ev idx = .ok (pre ++ specMarkers m ++ post) ∧
      ∀ op, op ∈ pre ∨ op ∈ post → op ≠ .fill ∧ ∀ x y r s t, op ≠ .arc x y r s t := by
  refine ⟨?_, .clearRect 0 0 w h :: specSegments m, drawHighlight w h ev idx, ?_, ?_⟩
  · intro i hi
    refine ⟨mkPts_toKeypoints_get m i hi, ?_⟩
    rw [drawKeypoint_arr3]
    by_cases hc : 3 / 10 < (m.joint i).2.2 ∧ 0 < (m.joint i).1 ∧ 0 < (m.joint i).2.1
    · have h1 := hc.2.1.ne'
      have h2 := hc.2.2.ne'
      simp [hc, markerOps, h1, h2]
    · refine ⟨?_, ?_, ?_⟩
      · simp [hc, markerOps]
      · simp [hc]
      · intro _; simp [hc]
  · rw [drawPose_toKeypoints]; simp
  · intro op hop
    rcases hop with hp | hh
    · rcases List.mem_cons.1 hp with rfl | hs
      · simp
      · obtain ⟨ax, ay, bx, by', hxy⟩ := mem_specSegments m op hs
        have := mem_segmentOps_no_fill ax ay bx by' op hxy
        exact ⟨this.1, this.2.1⟩
    · have := mem_overlayOps_no_path w h op (mem_drawHighlight w h ev idx op hh)
      exact ⟨this.2.2.2.1, this.2.2.2.2⟩

theorem noOverlay_of_not_mem (m : JointMap) (w h : ℚ) (ev : Option JumpEvent) (idx : ℤ)
    (hh : drawHighlight w h ev idx = []) :
    noOverlay (drawPose (some m.toKeypoints) w h ev idx) := by
  refine ⟨_, drawPose_toKeypoints m w h ev idx, ?_⟩
  intro op hop
  rw [hh, List.append_nil] at hop
  rcases List.mem_cons.1 hop with rfl | hop
  · simp
  rcases List.mem_append.1 hop with hs | hm
  · obtain ⟨ax, ay, bx, by', hxy⟩ := mem_specSegments m op hs
    have := mem_segmentOps_no_fill ax ay bx by' op hxy
    exact ⟨this.2.2.1, this.2.2.2⟩
  · obtain ⟨x, y, hxy⟩ := mem_specMarkers m op hm
    have := mem_markerOps_no_stroke x y op hxy
    exact ⟨this.2.2.2.1, this.2.2.2.2⟩

theorem showsOverlay_of_eq (m : JointMap) (w h : ℚ) (ev : Option JumpEvent) (idx : ℤ)
    (hh : drawHighlight w h ev idx = overlayOps w h) :
    showsOverlay w h (drawPose (some m.toKeypoints) w h ev idx) := by
  refine ⟨_, drawPose_toKeypoints m w h ev idx, ?_⟩
  rw [hh]
  exact ⟨.clearRect 0 0 w h :: (specSegments m ++ specMarkers m), by simp⟩

theorem not_showsOverlay_and_noOverlay (w h : ℚ) (r : Except JsError (List CanvasOp))
    (hs : showsOverlay w h r) (hn : noOverlay r) : False := by
  obtain ⟨ops, h1, hsuf⟩ := hs
  obtain ⟨ops', h2, hno⟩ := hn
  rw [h1] at h2
  cases h2
  have hmem : CanvasOp.fillText "AIRBORNE" 8 16 ∈ ops :=
    hsuf.subset (by simp [overlayOps])
  exact (hno _ hmem).2 _ _ _ rfl

theorem drawHighlight_some (w h : ℚ) (e : JumpEvent) (idx : ℤ) :
    drawHighlight w h (some e) idx =
      if e.takeoff_frame ≤ idx ∧ idx ≤ e.landing_frame then overlayOps w h else [] := by
  by_cases h1 : e.takeoff_frame ≤ idx <;> by_cases h2 : idx ≤ e.landing_frame <;>
    simp [drawHighlight, h1, h2]

theorem overlay_iff_aux (m : JointMap) (w h : ℚ) (e : JumpEvent) (idx : ℤ) :
    (showsOverlay w h (drawPose (some m.toKeypoints) w h (some e) idx) ↔
        e.takeoff_frame ≤ idx ∧ idx ≤ e.landing_frame) ∧
      (noOverlay (drawPose (some m.toKeypoints) w h (some e) idx) ↔
        ¬ (e.takeoff_frame ≤ idx ∧ idx ≤ e.landing_frame)) := by
  by_cases hc : e.takeoff_frame ≤ idx ∧ idx ≤ e.landing_frame
  · have hs := showsOverlay_of_eq m w h (some e) idx (by rw [drawHighlight_some, if_pos hc])
    exact ⟨⟨fun _ => hc, fun _ => hs⟩,
      ⟨fun hn => (not_showsOverlay_and_noOverlay w h _ hs hn).elim, fun hn => (hn hc).elim⟩⟩
  · have hn := noOverlay_of_not_mem m w h (some e) idx (by rw [drawHighlight_some, if_neg hc])
    exact ⟨⟨fun hs => (not_showsOverlay_and_noOverlay w h _ hs hn).elim, fun h' => (hc h').elim⟩,
      ⟨fun _ => hc, fun _ => hn⟩⟩

/-- C4: with keypoints present and an event present, `drawPose` draws the flight overlay
(the tint over the whole canvas and the label `AIRBORNE`) if and only if
`takeoff_frame ≤ frameIdx ≤ landing_frame`, and otherwise makes no `fillRect` or `fillText`
call at all: the overlay is there at the take-off and at the landing frame of a window that
is not empty, not there one frame before or one frame after, and never there without an
event. -/
theorem drawPose_overlay_iff (m : JointMap) (w h : ℚ) (e : JumpEvent) :
    (∀ idx,
      (showsOverlay w h (drawPose (some m.toKeypoints) w h (some e) idx) ↔
        e.takeoff_frame ≤ idx ∧ idx ≤ e.landing_frame) ∧
      (noOverlay (drawPose (some m.toKeypoints) w h (some e) idx) ↔
        ¬ (e.takeoff_frame ≤ idx ∧ idx ≤ e.landing_frame))) ∧
    (e.takeoff_frame ≤ e.landing_frame →
      showsOverlay w h (drawPose (some m.toKeypoints) w h (some e) e.takeoff_frame) ∧
      showsOverlay w h (drawPose (some m.toKeypoints) w h (some e) e.landing_frame)) ∧
    noOverlay (drawPose (some m.toKeypoints) w h (some e) (e.takeoff_frame - 1)) ∧
    noOverlay (drawPose (some m.toKeypoints) w h (some e) (e.landing_frame + 1)) ∧
    ∀ idx, noOverlay (drawPose (some m.toKeypoints) w h none idx) ∧
      ¬ showsOverlay w h (drawPose (some m.toKeypoints) w h none idx) := by
  refine ⟨fun idx => overlay_iff_aux m w h e idx, ?_, ?_, ?_, ?_⟩
  · intro hle
    exact ⟨(overlay_iff_aux m w h e _).1.2 ⟨le_refl _, hle⟩,
      (overlay_iff_aux m w h e _).1.2 ⟨hle, le_refl _⟩⟩
  · exact (overlay_iff_aux m w h e _).2.2 (fun hc => by omega)
  · exact (overlay_iff_aux m w h e _).2.2 (fun hc => by omega)
  · intro idx
    have hn := noOverlay_of_not_mem m w h none idx rfl
    exact ⟨hn, fun hs => not_showsOverlay_and_noOverlay w h _ hs hn⟩


theorem mkPts_get (kp : Keypoints) (i : ℕ) (hi : i < 17) :
    (mkPts kp)[i]? = some (orZero (kp (jointName i))) := by
  have hlen : i < KEYPOINT_NAMES.length := by simpa [KEYPOINT_NAMES] using hi
  simp [mkPts, List.getElem?_map, jointName, List.getD_eq_getElem?_getD,
    List.getElem?_eq_getElem hlen]

theorem mkPts_fillOmitted (kp : Keypoints) : mkPts (fillOmitted kp) = mkPts kp := by
  unfold mkPts
  apply List.map_congr_left
  intro n _
  unfold fillOmitted
  cases kp n <;> rfl

theorem destructure3_orZero (v : Option Entry) :
    (∃ t, destructure3 (some (orZero v)) = .ok t) ∨
      (destructure3 (some (orZero v)) = .error .typeError ∧ v = some .scalar) := by
  rcases v with _ | e
  · exact Or.inl ⟨_, rfl⟩
  · cases e with
    | falsy => exact Or.inl ⟨_, rfl⟩
    | arr xs => exact Or.inl ⟨_, rfl⟩
    | scalar => exact Or.inr ⟨rfl, rfl⟩

/-- C10: a keypoints object that omits joint names is drawn exactly as the same object with
each omitted name set to `[0, 0, 0]`; an omitted joint gets no marker, and the callback of a
topology pair with an omitted end draws nothing (if it throws, the other end holds a value
that is not iterable). -/
theorem drawPose_omitted_as_zero (kp : Keypoints) (w h : ℚ) (ev : Option JumpEvent) (idx : ℤ) :
    drawPose (some kp) w h ev idx = drawPose (some (fillOmitted kp)) w h ev idx ∧
    ∀ i < 17, kp (jointName i) = none →
      (mkPts kp)[i]? = some (.arr [0, 0, 0]) ∧
      drawKeypoint (.arr [0, 0, 0]) = .ok [] ∧
      ∀ p ∈ CONNECTIONS, p.1 = i ∨ p.2 = i →
        drawConnection (mkPts kp) p = .ok [] ∨
          (drawConnection (mkPts kp) p = .error .typeError ∧
            (kp (jointName p.1) = some .scalar ∨ kp (jointName p.2) = some .scalar)) := by
  refine ⟨?_, ?_⟩
  · simp only [drawPose, mkPts_fillOmitted]
  · intro i hi hnone
    have hpi : (mkPts kp)[i]? = some (.arr [0, 0, 0]) := by
      rw [mkPts_get kp i hi, hnone]; rfl
    refine ⟨hpi, ?_, ?_⟩
    · rw [drawKeypoint_arr3]; norm_num
    · intro p hp hend
      obtain ⟨h1, h2⟩ := CONNECTIONS_lt p hp
      have hz : jsGt (some 0) CONF_THRESHOLD = false := by
        simp [jsGt, CONF_THRESHOLD]; norm_num
      rcases hend with rfl | rfl
      · have ha : destructure3 (mkPts kp)[p.1]? = .ok (some 0, some 0, some 0) := by
          rw [hpi]; rfl
        rcases destructure3_orZero (kp (jointName p.2)) with ⟨t, ht⟩ | ⟨he, hs⟩
        · left
          rw [← mkPts_get kp p.2 h2] at ht
          unfold drawConnection
          rw [ha, ht]
          simp [hz]
        · right
          rw [← mkPts_get kp p.2 h2] at he
          refine ⟨?_, Or.inr hs⟩
          unfold drawConnection
          rw [ha, he]
      · have hb : destructure3 (mkPts kp)[p.2]? = .ok (some 0, some 0, some 0) := by
          rw [hpi]; rfl
        rcases destructure3_orZero (kp (jointName p.1)) with ⟨t, ht⟩ | ⟨he, hs⟩
        · left
          rw [← mkPts_get kp p.1 h1] at ht
          unfold drawConnection
          rw [ht, hb]
          simp [hz]
        · right
          rw [← mkPts_get kp p.1 h1] at he
          refine ⟨?_, Or.inl hs⟩
          unfold drawConnection
          rw [he]


/-! ## Lemmas on playback -/

theorem interval_eq : interval = 100 / 3 := by
  norm_num [interval, FPS]

theorem step_frame_stopped (v : Viewer) (t : ℚ) (hv : v.playing = false) :
    step v (.frame t) = v := by
  simp [step, hv]

theorem step_frame_early (v : Viewer) (t : ℚ) (ht : t - v.lastTime < 100 / 3) :
    step v (.frame t) = v := by
  have hni : ¬ (interval ≤ t - v.lastTime) := by rw [interval_eq]; exact not_le.2 ht
  simp only [step, tick, ge_iff_le, if_neg hni]
  split <;> rfl

theorem step_frame_accept (v : Viewer) (t : ℚ) (hv : v.playing = true)
    (ht : 100 / 3 ≤ t - v.lastTime) :
    step v (.frame t) =
      { totalFrames := v.totalFrames
        currentFrame := if (v.totalFrames : ℤ) - 1 ≤ v.currentFrame then 0 else v.currentFrame + 1
        playing := if (v.totalFrames : ℤ) - 1 ≤ v.currentFrame then false else true
        lastTime := t } := by
  have hi : interval ≤ t - v.lastTime := by rw [interval_eq]; exact ht
  by_cases hc : (v.totalFrames : ℤ) - 1 ≤ v.currentFrame <;>
    simp [step, tick, advance, hv, hi, hc]

theorem step_frame_ne (v : Viewer) (t : ℚ) (hne : step v (.frame t) ≠ v) :
    v.playing = true ∧ 100 / 3 ≤ t - v.lastTime := by
  constructor
  · by_contra hp
    exact hne (step_frame_stopped v t (by simpa using hp))
  · by_contra ht
    exact hne (step_frame_early v t (not_le.1 ht))

theorem step_frame_accept_ne (v : Viewer) (t : ℚ) (hv : v.playing = true)
    (ht : 100 / 3 ≤ t - v.lastTime) : step v (.frame t) ≠ v := by
  intro h
  have hl : (step v (.frame t)).lastTime = t := by rw [step_frame_accept v t hv ht]
  rw [h] at hl
  rw [hl] at ht
  norm_num at ht

theorem run_frames_stopped (v : Viewer) (ts : List ℚ) (hv : v.playing = false) :
    run v (ts.map .frame) = v ∧ acceptedTicks v ts = [] := by
  induction ts with
  | nil => exact ⟨rfl, rfl⟩
  | cons t ts ih =>
    have hs := step_frame_stopped v t hv
    constructor
    · simp only [run, List.map_cons, List.foldl_cons, hs]
      exact ih.1
    · simp only [acceptedTicks, hs, if_true]
      exact ih.2

theorem run_cons (v : Viewer) (e : Event) (es : List Event) :
    run v (e :: es) = run (step v e) es := rfl

theorem acceptedTicks_chain (v : Viewer) (ts : List ℚ) :
    List.Chain (fun a b => b - a ≥ 100 / 3) v.lastTime (acceptedTicks v ts) := by
  induction ts generalizing v with
  | nil => exact List.Chain.nil
  | cons t ts ih =>
    by_cases hs : step v (.frame t) = v
    · simp only [acceptedTicks, hs, if_true]
      exact ih v
    · obtain ⟨hv, ht⟩ := step_frame_ne v t hs
      simp only [acceptedTicks, hs, if_false]
      refine List.Chain.cons ht ?_
      have hl : (step v (.frame t)).lastTime = t := by rw [step_frame_accept v t hv ht]
      have := ih (step v (.frame t))
      rwa [hl] at this

theorem spaced_window (g U : ℚ) (l : List ℚ) :
    ∀ T : ℚ, l.Pairwise (fun a b => b - a ≥ g) → (∀ x ∈ l, T ≤ x ∧ x < U) →
      l = [] ∨ ((l.length : ℚ) - 1) * g < U - T := by
  induction l with
  | nil => intro _ _ _; exact Or.inl rfl
  | cons a l ih =>
    intro T hp hl
    right
    rw [List.pairwise_cons] at hp
    have ha := hl a (List.mem_cons_self a l)
    have hl' : ∀ x ∈ l, a + g ≤ x ∧ x < U := fun x hx =>
      ⟨by have := hp.1 x hx; linarith, (hl x (List.mem_cons_of_mem a hx)).2⟩
    rcases ih (a + g) hp.2 hl' with hnil | hlt
    · subst hnil
      simp only [List.length_singleton, Nat.cast_one, sub_self, zero_mul]
      linarith
    · simp only [List.length_cons, Nat.cast_add, Nat.cast_one, add_sub_cancel_right]
      nlinarith


theorem autoplay_from (ts : List ℚ) :
    ∀ v : Viewer, v.playing = true → 0 ≤ v.currentFrame →
      v.currentFrame ≤ (v.totalFrames : ℤ) - 1 →
      (v.currentFrame + (acceptedTicks v ts).length < v.totalFrames →
        (run v (ts.map .frame)).currentFrame = v.currentFrame + (acceptedTicks v ts).length ∧
        (run v (ts.map .frame)).playing = true) ∧
      (v.currentFrame + (acceptedTicks v ts).length = v.totalFrames →
        (run v (ts.map .frame)).currentFrame = 0 ∧
        (run v (ts.map .frame)).playing = false) ∧
      v.currentFrame + (acceptedTicks v ts).length ≤ v.totalFrames := by
  induction ts with
  | nil =>
    intro v hv h0 hN
    simp only [acceptedTicks, List.length_nil, Nat.cast_zero, add_zero, List.map_nil, run,
      List.foldl_nil]
    exact ⟨fun _ => ⟨trivial, hv⟩, fun h => by omega, by omega⟩
  | cons t ts ih =>
    intro v hv h0 hN
    by_cases hs : step v (.frame t) = v
    · have h := ih v hv h0 hN
      simp only [acceptedTicks, hs, if_true, List.map_cons, run_cons]
      exact h
    · obtain ⟨-, ht⟩ := step_frame_ne v t hs
      have hacc := step_frame_accept v t hv ht
      simp only [acceptedTicks, hs, if_false, List.map_cons, run_cons, List.length_cons,
        Nat.cast_add, Nat.cast_one]
      by_cases hlast : (v.totalFrames : ℤ) - 1 ≤ v.currentFrame
      · have hstop : (step v (.frame t)).playing = false := by rw [hacc]; simp [hlast]
        have hcur : (step v (.frame t)).currentFrame = 0 := by rw [hacc]; simp [hlast]
        obtain ⟨hrun, hnil⟩ := run_frames_stopped (step v (.frame t)) ts hstop
        rw [hrun, hnil, hstop, hcur]
        simp only [List.length_nil, Nat.cast_zero, zero_add]
        exact ⟨fun h => by omega, fun _ => ⟨trivial, trivial⟩, by omega⟩
      · have hplay : (step v (.frame t)).playing = true := by rw [hacc]; simp [hlast]
        have hcur : (step v (.frame t)).currentFrame = v.currentFrame + 1 := by
          rw [hacc]; simp [hlast]
        have htot : (step v (.frame t)).totalFrames = v.totalFrames := by rw [hacc]
        have h := ih (step v (.frame t)) hplay (by rw [hcur]; omega) (by rw [hcur, htot]; omega)
        rw [hcur, htot] at h
        refine ⟨fun hlt => ?_, fun heq => ?_, ?_⟩
        · have := h.1 (by omega)
          exact ⟨by rw [this.1]; ring, this.2⟩
        · exact h.2.1 (by omega)
        · have := h.2.2; omega

theorem visited_stopped (v : Viewer) (ts : List ℚ) (hv : v.playing = false) :
    visited v ts = [] := by
  induction ts with
  | nil => rfl
  | cons t ts ih => simp only [visited, step_frame_stopped v t hv, if_true]; exact ih

theorem visited_from (ts : List ℚ) :
    ∀ v : Viewer, v.playing = true → 0 ≤ v.currentFrame →
      v.currentFrame ≤ (v.totalFrames : ℤ) - 1 →
      (visited v ts).length = (acceptedTicks v ts).length ∧
      ∀ j : ℕ, j < (visited v ts).length →
        (visited v ts)[j]? =
          some (if v.currentFrame + j + 1 < v.totalFrames then v.currentFrame + j + 1 else 0) := by
  induction ts with
  | nil => intro v _ _ _; simp [visited, acceptedTicks]
  | cons t ts ih =>
    intro v hv h0 hN
    by_cases hs : step v (.frame t) = v
    · simp only [visited, acceptedTicks, hs, if_true]
      exact ih v hv h0 hN
    · obtain ⟨-, ht⟩ := step_frame_ne v t hs
      have hacc := step_frame_accept v t hv ht
      simp only [visited, acceptedTicks, hs, if_false, List.length_cons]
      by_cases hlast : (v.totalFrames : ℤ) - 1 ≤ v.currentFrame
      · have hstop : (step v (.frame t)).playing = false := by rw [hacc]; simp [hlast]
        have hcur : (step v (.frame t)).currentFrame = 0 := by rw [hacc]; simp [hlast]
        rw [visited_stopped _ ts hstop, (run_frames_stopped _ ts hstop).2, hcur]
        refine ⟨rfl, fun j hj => ?_⟩
        have hj0 : j = 0 := by simpa using hj
        subst hj0
        have : ¬ (v.currentFrame + 1 < v.totalFrames) := by omega
        simp [this]
      · have hplay : (step v (.frame t)).playing = true := by rw [hacc]; simp [hlast]
        have hcur : (step v (.frame t)).currentFrame = v.currentFrame + 1 := by
          rw [hacc]; simp [hlast]
        have htot : (step v (.frame t)).totalFrames = v.totalFrames := by rw [hacc]
        have h := ih (step v (.frame t)) hplay (by rw [hcur]; omega) (by rw [hcur, htot]; omega)
        rw [hcur, htot] at h
        refine ⟨by rw [h.1], fun j hj => ?_⟩
        cases j with
        | zero =>
          have : v.currentFrame + 1 < v.totalFrames := by omega
          simp [this, hcur]
        | succ j =>
          have hj' : j < (visited (step v (.frame t)) ts).length := by simpa using hj
          rw [List.getElem?_cons_succ, h.2 j hj']
          push_cast
          have e : v.currentFrame + 1 + (j : ℤ) + 1 = v.currentFrame + ((j : ℤ) + 1) + 1 := by
            ring
          rw [e]

/-! ## Claims on playback -/

/-- C2: for `N ≥ 1`, autoplay started at index 0 advances the index by one at each accepted
clock step: after `k < N` accepted ticks the index is `k` and the viewer still plays, so the
indices `0, 1, ..., N-1` are visited in order with none skipped or repeated; the accepted
tick taken at index `N-1`, the `N`-th, sets the index to 0 and `playing` to false, and no
tick is accepted after it; the index after the `(j+1)`-th accepted tick is `j + 1` while
`j + 1 < N` and 0 then. -/
theorem autoplay_visits_in_order (v : Viewer) (ts : List ℚ) (hN : 1 ≤ v.totalFrames)
    (hplay : v.playing = true) (hstart : v.currentFrame = 0) :
    ((acceptedTicks v ts).length < v.totalFrames →
      (run v (ts.map .frame)).currentFrame = (acceptedTicks v ts).length ∧
      (run v (ts.map .frame)).playing = true) ∧
    ((acceptedTicks v ts).length = v.totalFrames →
      (run v (ts.map .frame)).currentFrame = 0 ∧
      (run v (ts.map .frame)).playing = false) ∧
    (acceptedTicks v ts).length ≤ v.totalFrames ∧
    (visited v ts).length = (acceptedTicks v ts).length ∧
    ∀ j : ℕ, j < (visited v ts).length →
      (visited v ts)[j]? = some (if j + 1 < v.totalFrames then (j : ℤ) + 1 else 0) := by
  have h := autoplay_from ts v hplay (by omega) (by omega)
  have hvis := visited_from ts v hplay (by omega) (by omega)
  rw [hstart] at h hvis
  simp only [zero_add, Nat.cast_lt, Nat.cast_inj, Nat.cast_le] at h
  refine ⟨h.1, h.2.1, h.2.2, hvis.1, fun j hj => ?_⟩
  rw [hvis.2 j hj]
  simp only [zero_add]
  congr 1
  by_cases hlt : j + 1 < v.totalFrames
  · have : ((j : ℤ) + 1 < v.totalFrames) := by omega
    simp [hlt, this]
  · have : ¬ ((j : ℤ) + 1 < v.totalFrames) := by omega
    simp [hlt, this]


/-- Witness for C2: three frames, played from the start under frames at 40, 50, 80 and 120 ms,
of which three are accepted: the viewer ends stopped at index 0, having shown 1, 2, 0. -/
theorem autoplay_visits_in_order_witness :
    (run (step (mount 3) .click) ([40, 50, 80, 120].map .frame)).currentFrame = 0 ∧
      (run (step (mount 3) .click) ([40, 50, 80, 120].map .frame)).playing = false ∧
      visited (step (mount 3) .click) [40, 50, 80, 120] = [1, 2, 0] :=
  ⟨((autoplay_visits_in_order (step (mount 3) .click) [40, 50, 80, 120]
      (by decide) (by decide) (by decide)).2.1 (by decide!)).1,
    ((autoplay_visits_in_order (step (mount 3) .click) [40, 50, 80, 120]
      (by decide) (by decide) (by decide)).2.1 (by decide!)).2,
    by decide!⟩

/-- C3, as stated, fails: with 6 frames, the change handler run with the value 106 leaves
the index at 106, not at 5, and run with -5 leaves it at -5, not at 0. -/
theorem seek_not_clamped :
    (step ⟨6, 2, true, 40⟩ (.scrub 106)).currentFrame = 106 ∧
      (step ⟨6, 2, true, 40⟩ (.scrub (-5))).currentFrame = -5 ∧
      ¬ (step ⟨6, 2, true, 40⟩ (.scrub 106)).currentFrame = 6 - 1 ∧
      ¬ (step ⟨6, 2, true, 40⟩ (.scrub (-5))).currentFrame = 0 := by
  decide

/-- C3, amended: for a sequence of length `N ≥ 1` a seek stores its target as it is, without
clamping: `seek(k)` leaves the index at `k` for every `k`, so `seek(N + 100)` leaves it at
`N + 100` and `seek(-5)` at `-5`; for a target within `[0, N-1]` the index left is
`min(max(k, 0), N - 1)`. -/
theorem seek_stores_target (v : Viewer) (hN : 1 ≤ v.totalFrames) :
    (∀ k : ℤ, (step v (.scrub k)).currentFrame = k) ∧
    (step v (.scrub (v.totalFrames + 100))).currentFrame = (v.totalFrames : ℤ) + 100 ∧
    (step v (.scrub (-5))).currentFrame = -5 ∧
    ∀ k : ℤ, 0 ≤ k → k ≤ (v.totalFrames : ℤ) - 1 →
      (step v (.scrub k)).currentFrame = min (max k 0) ((v.totalFrames : ℤ) - 1) := by
  have hne : v.totalFrames ≠ 0 := by omega
  have hk : ∀ k : ℤ, (step v (.scrub k)).currentFrame = k := by
    intro k
    simp only [step, hne, if_false, seek]
    split_ifs with h
    · exact h.symm
    · rfl
  refine ⟨hk, hk _, hk _, ?_⟩
  intro k h0 h1
  rw [hk, max_eq_left h0, min_eq_left h1]

/-- Witness for C3, amended: a viewer of 6 frames playing at index 2. -/
theorem seek_stores_target_witness :
    (step ⟨6, 2, true, 40⟩ (.scrub ((6 : ℕ) + 100))).currentFrame = ((6 : ℕ) : ℤ) + 100 ∧
      (step ⟨6, 2, true, 40⟩ (.scrub (-5))).currentFrame = -5 :=
  ⟨(seek_stores_target ⟨6, 2, true, 40⟩ (by decide)).2.1,
    (seek_stores_target ⟨6, 2, true, 40⟩ (by decide)).2.2.1⟩

/-- C6, as stated, fails: a viewer of 6 frames playing at index 2 whose scrub input is moved
to 2, the position it shows, gets no change event and keeps playing. -/
theorem seek_to_current_keeps_playing :
    (step ⟨6, 2, true, 40⟩ (.scrub 2)).playing = true ∧
      step ⟨6, 2, true, 40⟩ (.scrub 2) = ⟨6, 2, true, 40⟩ := by
  decide!

/-- C6, amended: in either state, a seek to a target `k` in `[0, N-1]` leaves the index at
`k`; when `k` is not the current index it leaves the viewer stopped, and when `k` is the
current index it leaves the viewer as it is, so a playing viewer keeps playing. -/
theorem seek_stops_unless_current (v : Viewer) (k : ℤ) (h0 : 0 ≤ k)
    (hk : k ≤ (v.totalFrames : ℤ) - 1) :
    (step v (.scrub k)).currentFrame = k ∧
      (step v (.scrub k)).totalFrames = v.totalFrames ∧
      (k ≠ v.currentFrame → (step v (.scrub k)).playing = false) ∧
      (k = v.currentFrame → step v (.scrub k) = v) := by
  have hne : v.totalFrames ≠ 0 := by omega
  simp only [step, hne, if_false, seek]
  by_cases hc : k = v.currentFrame
  · simp only [hc, if_true]
    exact ⟨trivial, trivial, fun h => (h rfl).elim, fun _ => trivial⟩
  · simp only [hc, if_false, onScrub]
    exact ⟨trivial, trivial, fun _ => trivial, fun h => h.elim⟩

/-- Witness for C6, amended: a seek to 4 while playing at index 2 of 6 frames. -/
theorem seek_stops_unless_current_witness :
    (step ⟨6, 2, true, 40⟩ (.scrub 4)).currentFrame = 4 ∧
      (step ⟨6, 2, true, 40⟩ (.scrub 4)).totalFrames = 6 ∧
      ((4 : ℤ) ≠ 2 → (step ⟨6, 2, true, 40⟩ (.scrub 4)).playing = false) ∧
      ((4 : ℤ) = 2 → step ⟨6, 2, true, 40⟩ (.scrub 4) = ⟨6, 2, true, 40⟩) :=
  seek_stops_unless_current ⟨6, 2, true, 40⟩ 4 (by decide) (by decide)

/-- C7: in one run of the playback clock, two consecutive accepted ticks are at least
`1000/30` ms apart, so at most 30 ticks are accepted in any window `[T, T + 1000)` of one
second; a tick less than `1000/30` ms after the last accepted one changes nothing, neither
the index nor the baseline. -/
theorem accepted_ticks_rate_cap (v : Viewer) (ts : List ℚ) :
    List.Chain' (fun a b => b - a ≥ 1000 / 30) (acceptedTicks v ts) ∧
    (∀ T : ℚ,
      ((acceptedTicks v ts).filter fun t => decide (T ≤ t ∧ t < T + 1000)).length ≤ 30) ∧
    ∀ t : ℚ, t - v.lastTime < 1000 / 30 → step v (.frame t) = v := by
  have hg : (1000 : ℚ) / 30 = 100 / 3 := by norm_num
  have hchain : List.Chain' (fun a b : ℚ => b - a ≥ 100 / 3) (acceptedTicks v ts) :=
    List.Chain'.tail (l := v.lastTime :: acceptedTicks v ts) (acceptedTicks_chain v ts)
  rw [hg]
  refine ⟨hchain, fun T => ?_, fun t ht => step_frame_early v t ht⟩
  haveI : IsTrans ℚ (fun a b : ℚ => b - a ≥ 100 / 3) :=
    ⟨fun a b c hab hbc => by
      have h1 : (100 : ℚ) / 3 ≤ b - a := hab
      have h2 : (100 : ℚ) / 3 ≤ c - b := hbc
      show (100 : ℚ) / 3 ≤ c - a
      linarith⟩
  have hpair := List.chain'_iff_pairwise.1 hchain
  have hsub := List.Pairwise.sublist
    (List.filter_sublist (p := fun t => decide (T ≤ t ∧ t < T + 1000)) (acceptedTicks v ts)) hpair
  have hmem : ∀ x ∈ (acceptedTicks v ts).filter (fun t => decide (T ≤ t ∧ t < T + 1000)),
      T ≤ x ∧ x < T + 1000 := by
    intro x hx
    simpa using (List.mem_filter.1 hx).2
  rcases spaced_window (100 / 3) (T + 1000) _ T hsub hmem with hnil | hlt
  · rw [hnil]; simp
  · have hlen : ((((acceptedTicks v ts).filter
        fun t => decide (T ≤ t ∧ t < T + 1000)).length : ℕ) : ℚ) < 31 := by linarith
    have : (((acceptedTicks v ts).filter
        fun t => decide (T ≤ t ∧ t < T + 1000)).length : ℕ) < 31 := by exact_mod_cast hlen
    omega


/-- C8, as stated, fails: with an empty sequence, after a click on play and a clock tick the
viewer is stopped, but its index is the number 0, not `undefined`. -/
theorem empty_sequence_index_not_undefined :
    ¬ ((run (mount 0) [.click, .frame 40]).playing = false ∧
        (run (mount 0) [.click, .frame 40]).currentFrameValue = none) ∧
      (run (mount 0) [.click, .frame 40]).currentFrameValue = some 0 :=
  ⟨fun h => Option.noConfusion h.2, rfl⟩

/-- C8, amended: with an empty sequence play is a no-op, and so are a scrub and a clock
tick: after any such events the viewer is as mounted, stopped, and its index is 0. -/
theorem empty_sequence_stays_stopped (events : List Event)
    (hempty : ∀ e ∈ events, ∀ n, e = .newFrames n → n = 0) :
    run (mount 0) events = mount 0 ∧
      (run (mount 0) events).playing = false ∧
      (run (mount 0) events).currentFrameValue = some 0 := by
  have hrun : run (mount 0) events = mount 0 := by
    induction events with
    | nil => rfl
    | cons e es ih =>
      have hstep : step (mount 0) e = mount 0 := by
        cases e with
        | click => rfl
        | scrub k => rfl
        | frame t => rfl
        | newFrames n =>
          have hn : n = 0 := hempty _ (List.mem_cons_self _ _) n rfl
          subst hn
          simp [step, setPoseFrames, mount]
      rw [run_cons, hstep]
      exact ih (fun e he => hempty e (List.mem_cons_of_mem _ he))
  rw [hrun]
  exact ⟨rfl, rfl, rfl⟩

/-- Witness for C8, amended: play, two ticks, a scrub and play again on an empty sequence. -/
theorem empty_sequence_stays_stopped_witness :
    run (mount 0) [.click, .frame 40, .frame 80, .scrub 3, .click] = mount 0 ∧
      (run (mount 0) [.click, .frame 40, .frame 80, .scrub 3, .click]).playing = false ∧
      (run (mount 0) [.click, .frame 40, .frame 80, .scrub 3, .click]).currentFrameValue =
        some 0 :=
  empty_sequence_stays_stopped [.click, .frame 40, .frame 80, .scrub 3, .click] (by simp)

/-- C9, as stated, fails: a viewer of 100 frames scrubbed to index 50 and then given a
sequence of 10 frames still has index 50, which is neither 0 nor within `[0, 9]`. -/
theorem new_sequence_index_not_reset :
    (run (mount 100) [.scrub 50, .newFrames 10]).currentFrame = 50 ∧
      (run (mount 100) [.scrub 50, .newFrames 10]).totalFrames = 10 ∧
      ¬ (run (mount 100) [.scrub 50, .newFrames 10]).currentFrame = 0 ∧
      ¬ (0 ≤ (run (mount 100) [.scrub 50, .newFrames 10]).currentFrame ∧
        (run (mount 100) [.scrub 50, .newFrames 10]).currentFrame ≤ 10 - 1) := by
  decide

/-- C9, amended: a new frame sequence leaves the index and the playing flag as they were; the
index is within `[0, M-1]` after a replacement by `M` frames exactly when it was before; and
a playing viewer whose index is `M-1` or more goes to index 0 and stops at its next accepted
tick. -/
theorem new_sequence_keeps_state (v : Viewer) (M : ℕ) :
    (step v (.newFrames M)).currentFrame = v.currentFrame ∧
    (step v (.newFrames M)).playing = v.playing ∧
    (step v (.newFrames M)).totalFrames = M ∧
    ((0 ≤ (step v (.newFrames M)).currentFrame ∧
        (step v (.newFrames M)).currentFrame ≤ (M : ℤ) - 1) ↔
      (0 ≤ v.currentFrame ∧ v.currentFrame ≤ (M : ℤ) - 1)) ∧
    ∀ t : ℚ, v.playing = true → (M : ℤ) - 1 ≤ v.currentFrame →
      1000 / 30 ≤ t - (step v (.newFrames M)).lastTime →
      (step (step v (.newFrames M)) (.frame t)).currentFrame = 0 ∧
        (step (step v (.newFrames M)) (.frame t)).playing = false := by
  refine ⟨rfl, rfl, rfl, Iff.rfl, ?_⟩
  intro t hp hc ht
  have hg : (1000 : ℚ) / 30 = 100 / 3 := by norm_num
  rw [hg] at ht
  have hp' : (step v (.newFrames M)).playing = true := hp
  rw [step_frame_accept _ t hp' ht]
  have hc' : ((step v (.newFrames M)).totalFrames : ℤ) - 1 ≤
      (step v (.newFrames M)).currentFrame := hc
  simp [hc']


/-! ## Claims on badly shaped frames -/

/-- C11, as stated, fails: a left shoulder with confidence 1.5 next to a right shoulder with
confidence 0.9 is not drawn as `(0, 0, 0)` would be: it gets its marker and the segment
between the shoulders, and the drawing differs from the one with `[0, 0, 0]` in its place. -/
theorem confidence_above_one_is_drawn :
    drawKeypoint (.arr [10, 20, 3 / 2]) = .ok (markerOps (some 10) (some 20)) ∧
      drawConnection
          (mkPts (fun n =>
            if n = "left_shoulder" then some (.arr [10, 20, 3 / 2])
            else if n = "right_shoulder" then some (.arr [30, 20, 9 / 10]) else none))
          (5, 6) =
        .ok (segmentOps (some 10) (some 20) (some 30) (some 20)) ∧
      drawPose
          (some (fun n =>
            if n = "left_shoulder" then some (.arr [10, 20, 3 / 2])
            else if n = "right_shoulder" then some (.arr [30, 20, 9 / 10]) else none))
          360 640 none 0 ≠
        drawPose
          (some (fun n =>
            if n = "left_shoulder" then some (.arr [0, 0, 0])
            else if n = "right_shoulder" then some (.arr [30, 20, 9 / 10]) else none))
          360 640 none 0 := by
  decide!

/-- C11, amended: `drawPose` does not check that a confidence lies in `[0, 1]`. A joint whose
confidence is outside that range gets a marker exactly when the confidence is above 1 and
both coordinates are positive, and the segment of a topology pair it belongs to is drawn
exactly when its confidence is above 1 and the other confidence is above 0.3; so a
confidence below 0 draws nothing, as `(0, 0, 0)` does, and one above 1 is drawn. -/
theorem confidence_out_of_range (m : JointMap) (i : ℕ) (hi : i < 17)
    (hout : (m.joint i).2.2 < 0 ∨ 1 < (m.joint i).2.2) :
    (mkPts m.toKeypoints)[i]? =
        some (.arr [(m.joint i).1, (m.joint i).2.1, (m.joint i).2.2]) ∧
    (drawKeypoint (.arr [(m.joint i).1, (m.joint i).2.1, (m.joint i).2.2]) =
        .ok (markerOps (some (m.joint i).1) (some (m.joint i).2.1)) ↔
      1 < (m.joint i).2.2 ∧ 0 < (m.joint i).1 ∧ 0 < (m.joint i).2.1) ∧
    (drawKeypoint (.arr [(m.joint i).1, (m.joint i).2.1, (m.joint i).2.2]) = .ok [] ↔
      ¬ (1 < (m.joint i).2.2 ∧ 0 < (m.joint i).1 ∧ 0 < (m.joint i).2.1)) ∧
    ∀ p ∈ CONNECTIONS, p.1 = i ∨ p.2 = i →
      (drawConnection (mkPts m.toKeypoints) p =
          .ok (segmentOps (some (m.joint p.1).1) (some (m.joint p.1).2.1)
            (some (m.joint p.2).1) (some (m.joint p.2).2.1)) ↔
        1 < (m.joint i).2.2 ∧ 3 / 10 < (m.joint p.1).2.2 ∧ 3 / 10 < (m.joint p.2).2.2) ∧
      (drawConnection (mkPts m.toKeypoints) p = .ok [] ↔
        ¬ (1 < (m.joint i).2.2 ∧ 3 / 10 < (m.joint p.1).2.2 ∧ 3 / 10 < (m.joint p.2).2.2)) := by
  have hconf : 3 / 10 < (m.joint i).2.2 ↔ 1 < (m.joint i).2.2 := by
    constructor
    · intro h3
      rcases hout with hneg | hbig
      · linarith
      · exact hbig
    · intro h1; linarith
  refine ⟨mkPts_toKeypoints_get m i hi, ?_, ?_, ?_⟩
  · rw [drawKeypoint_arr3, ← hconf]
    by_cases hc : 3 / 10 < (m.joint i).2.2 ∧ 0 < (m.joint i).1 ∧ 0 < (m.joint i).2.1
    · simp [hc]
    · simp [hc, markerOps]
  · rw [drawKeypoint_arr3, ← hconf]
    by_cases hc : 3 / 10 < (m.joint i).2.2 ∧ 0 < (m.joint i).1 ∧ 0 < (m.joint i).2.1
    · simp [hc, markerOps]
    · simp [hc]
  · intro p hp hend
    rw [drawConnection_toKeypoints m p hp, ← hconf]
    have hiff : (3 / 10 < (m.joint i).2.2 ∧ 3 / 10 < (m.joint p.1).2.2 ∧
        3 / 10 < (m.joint p.2).2.2) ↔
        (3 / 10 < (m.joint p.1).2.2 ∧ 3 / 10 < (m.joint p.2).2.2) := by
      rcases hend with rfl | rfl <;> tauto
    rw [hiff]
    by_cases hc : 3 / 10 < (m.joint p.1).2.2 ∧ 3 / 10 < (m.joint p.2).2.2
    · simp [hc, segmentOps]
    · simp [hc, segmentOps]

/-- Witness for C11, amended: the left shoulder of `overconfidentShoulder`, confidence 1.5 at
`(10, 20)`, gets its marker. -/
theorem confidence_out_of_range_witness :
    1 < (overconfidentShoulder.joint 5).2.2 ∧
      drawKeypoint (.arr [(overconfidentShoulder.joint 5).1, (overconfidentShoulder.joint 5).2.1,
          (overconfidentShoulder.joint 5).2.2]) =
        .ok (markerOps (some (overconfidentShoulder.joint 5).1)
          (some (overconfidentShoulder.joint 5).2.1)) :=
  ⟨by decide!,
    (confidence_out_of_range overconfidentShoulder 5 (by decide) (Or.inr (by decide!))).2.1.2
      (by decide!)⟩

theorem forEach_ok_inv {α : Type} (f : α → Except JsError (List CanvasOp)) (xs : List α)
    (ops : List CanvasOp) (h : forEach f xs = .ok ops) : ∀ x ∈ xs, ∃ o, f x = .ok o := by
  induction xs generalizing ops with
  | nil => intro x hx; cases hx
  | cons y ys ih =>
    intro x hx
    simp only [forEach] at h
    cases hy : f y with
    | error e => rw [hy] at h; cases h
    | ok here =>
      rw [hy] at h
      cases hys : forEach f ys with
      | error e => rw [hys] at h; cases h
      | ok later =>
        rcases List.mem_cons.1 hx with rfl | hx'
        · exact ⟨here, hy⟩
        · exact ih later hys x hx'

theorem forEach_ok_of_all {α : Type} (f : α → Except JsError (List CanvasOp)) (xs : List α)
    (h : ∀ x ∈ xs, ∃ o, f x = .ok o) : ∃ ops, forEach f xs = .ok ops := by
  induction xs with
  | nil => exact ⟨[], rfl⟩
  | cons y ys ih =>
    obtain ⟨here, hy⟩ := h y (List.mem_cons_self y ys)
    obtain ⟨later, hys⟩ := ih (fun x hx => h x (List.mem_cons_of_mem y hx))
    exact ⟨here ++ later, by simp [forEach, hy, hys]⟩

theorem destructure3_ok_iff (e : Entry) :
    (∃ t, destructure3 (some e) = .ok t) ↔ ∃ xs, e = .arr xs := by
  cases e with
  | falsy => simp [destructure3]
  | arr xs => simp [destructure3]
  | scalar => simp [destructure3]

theorem drawKeypoint_ok_iff (e : Entry) :
    (∃ o, drawKeypoint e = .ok o) ↔ ∃ xs, e = .arr xs := by
  cases e with
  | falsy => simp [drawKeypoint, destructure3]
  | scalar => simp [drawKeypoint, destructure3]
  | arr xs =>
    simp only [drawKeypoint, destructure3, Entry.arr.injEq, exists_eq', iff_true]
    split <;> exact ⟨_, rfl⟩

theorem orZero_arr_iff (v : Option Entry) :
    (∃ xs, orZero v = .arr xs) ↔ v ≠ some .scalar := by
  rcases v with _ | e
  · simp [orZero]
  · cases e <;> simp [orZero]

theorem mkPts_length (kp : Keypoints) : (mkPts kp).length = 17 := by
  simp [mkPts, KEYPOINT_NAMES]

theorem drawConnection_ok_of_arr (pts : List Entry) (p : ℕ × ℕ) (xs ys : List ℚ)
    (ha : pts[p.1]? = some (.arr xs)) (hb : pts[p.2]? = some (.arr ys)) :
    ∃ o, drawConnection pts p = .ok o := by
  simp only [drawConnection, ha, hb, destructure3]
  split <;> exact ⟨_, rfl⟩

/-- C12, as stated, fails: with the number 5 stored under `nose`, the destructuring of
`pts[0]` throws a `TypeError` and `drawPose` returns no drawing. -/
theorem drawPose_throws_on_scalar_entry :
    drawPose (some scalarNose) 360 640 none 0 = .error .typeError ∧
      ¬ ∃ ops, drawPose (some scalarNose) 360 640 none 0 = .ok ops := by
  have h : drawPose (some scalarNose) 360 640 none 0 = .error .typeError := by decide!
  exact ⟨h, fun ⟨ops, hops⟩ => by rw [h] at hops; cases hops⟩

/-- C12, amended: `drawPose` returns a drawing for absent keypoints, and for a keypoints
object exactly when none of the 17 joint names holds a truthy value that is not iterable
(names may be missing, hold a falsy value, or an array of any length with any confidence);
otherwise it throws a `TypeError`. Every index of `CONNECTIONS` is a valid position of the
17-entry list `pts`, so each endpoint lookup finds an entry. -/
theorem drawPose_returns_iff (kp : Keypoints) (w h : ℚ) (ev : Option JumpEvent) (idx : ℤ) :
    ((∃ ops, drawPose (some kp) w h ev idx = .ok ops) ↔
      ∀ n ∈ KEYPOINT_NAMES, kp n ≠ some .scalar) ∧
    ((¬ ∀ n ∈ KEYPOINT_NAMES, kp n ≠ some .scalar) →
      drawPose (some kp) w h ev idx = .error .typeError) ∧
    (∃ ops, drawPose none w h ev idx = .ok ops) ∧
    (mkPts kp).length = 17 ∧
    ∀ p ∈ CONNECTIONS, (∃ e, (mkPts kp)[p.1]? = some e) ∧ ∃ e, (mkPts kp)[p.2]? = some e := by
  have hiff : (∃ ops, drawPose (some kp) w h ev idx = .ok ops) ↔
      ∀ n ∈ KEYPOINT_NAMES, kp n ≠ some .scalar := by
    constructor
    · rintro ⟨ops, hops⟩ n hn
      simp only [drawPose] at hops
      cases hseg : forEach (drawConnection (mkPts kp)) CONNECTIONS with
      | error e => rw [hseg] at hops; cases hops
      | ok segs =>
        rw [hseg] at hops
        cases hmark : forEach drawKeypoint (mkPts kp) with
        | error e => rw [hmark] at hops; cases hops
        | ok marks =>
          have hall := forEach_ok_inv drawKeypoint (mkPts kp) marks hmark
          have hmem : orZero (kp n) ∈ mkPts kp := List.mem_map.2 ⟨n, hn, rfl⟩
          exact (orZero_arr_iff (kp n)).1 ((drawKeypoint_ok_iff _).1 (hall _ hmem))
    · intro hall
      have harr : ∀ e ∈ mkPts kp, ∃ xs, e = .arr xs := by
        intro e he
        obtain ⟨n, hn, rfl⟩ := List.mem_map.1 he
        exact (orZero_arr_iff (kp n)).2 (hall n hn)
      have hget : ∀ i < 17, ∃ xs, (mkPts kp)[i]? = some (.arr xs) := by
        intro i hi
        have hlt : i < (mkPts kp).length := by rw [mkPts_length]; exact hi
        obtain ⟨xs, hxs⟩ := harr _ (List.getElem_mem hlt)
        exact ⟨xs, by rw [List.getElem?_eq_getElem hlt, hxs]⟩
      obtain ⟨segs, hseg⟩ := forEach_ok_of_all (drawConnection (mkPts kp)) CONNECTIONS
        (fun p hp => by
          obtain ⟨h1, h2⟩ := CONNECTIONS_lt p hp
          obtain ⟨xs, hxs⟩ := hget p.1 h1
          obtain ⟨ys, hys⟩ := hget p.2 h2
          exact drawConnection_ok_of_arr _ p xs ys hxs hys)
      obtain ⟨marks, hmark⟩ := forEach_ok_of_all drawKeypoint (mkPts kp)
        (fun e he => (drawKeypoint_ok_iff e).2 (harr e he))
      exact ⟨.clearRect 0 0 w h :: (segs ++ marks ++ drawHighlight w h ev idx),
        by simp [drawPose, hseg, hmark]⟩
  refine ⟨hiff, ?_, ⟨_, rfl⟩, mkPts_length kp, ?_⟩
  · intro hbad
    cases hres : drawPose (some kp) w h ev idx with
    | error e => cases e; rfl
    | ok ops => exact (hbad (hiff.1 ⟨ops, hres⟩)).elim
  · intro p hp
    obtain ⟨h1, h2⟩ := CONNECTIONS_lt p hp
    exact ⟨⟨_, mkPts_get kp p.1 h1⟩, ⟨_, mkPts_get kp p.2 h2⟩⟩


/-! ## Claims on the flight window -/

/-- C13, as stated, fails: with 6 frames and the event `takeoff = -5`, `landing = 2`, whose
take-off index is out of range, the frame of index 1 is drawn with the overlay. -/
theorem overlay_shown_for_out_of_range_event :
    showsOverlay 360 640
        (drawPose (some (JointMap.toKeypoints fun _ => none)) 360 640 (some ⟨-5, 2⟩) 1) ∧
      ¬ noOverlay
        (drawPose (some (JointMap.toKeypoints fun _ => none)) 360 640 (some ⟨-5, 2⟩) 1) := by
  have hs : showsOverlay 360 640
      (drawPose (some (JointMap.toKeypoints fun _ => none)) 360 640 (some ⟨-5, 2⟩) 1) :=
    (overlay_iff_aux (fun _ => none) 360 640 ⟨-5, 2⟩ 1).1.2 (by decide)
  exact ⟨hs, fun hn => not_showsOverlay_and_noOverlay _ _ _ hs hn⟩

theorem renderEffect_at (frames : List PoseFrame) (i : ℕ) (f : PoseFrame)
    (ev : Option JumpEvent) (hf : frames[i]? = some f) :
    renderEffect frames i ev = some (drawPose f.keypoints 360 640 ev f.frame_idx) := by
  have hneg : ¬ ((i : ℤ) < 0) := by omega
  simp only [renderEffect, hneg, if_false, Int.toNat_ofNat, hf]

theorem overlay_frame_aux (f : PoseFrame) (e : JumpEvent)
    (hkp : ∃ m : JointMap, f.keypoints = some m.toKeypoints) :
    (showsOverlay 360 640 (drawPose f.keypoints 360 640 (some e) f.frame_idx) ↔
        e.takeoff_frame ≤ f.frame_idx ∧ f.frame_idx ≤ e.landing_frame) ∧
      (noOverlay (drawPose f.keypoints 360 640 (some e) f.frame_idx) ↔
        ¬ (e.takeoff_frame ≤ f.frame_idx ∧ f.frame_idx ≤ e.landing_frame)) := by
  obtain ⟨m, hm⟩ := hkp
  rw [hm]
  exact overlay_iff_aux m 360 640 e f.frame_idx

/-- C13, amended: the overlay test compares the `frame_idx` of the frame drawn with the two
indices of the event and nothing else, also when one of them is outside `[0, N-1]`: a frame
of the sequence (with keypoints) is drawn with the overlay exactly when its own `frame_idx`
lies in `[takeoff, landing]`, and no frame of the sequence gets the overlay exactly when no
frame has its `frame_idx` in that window. -/
theorem overlay_by_frame_idx (frames : List PoseFrame) (e : JumpEvent)
    (hkp : ∀ f ∈ frames, ∃ m : JointMap, f.keypoints = some m.toKeypoints) :
    (∀ (i : ℕ) (f : PoseFrame), frames[i]? = some f →
      renderEffect frames i (some e) =
        some (drawPose f.keypoints 360 640 (some e) f.frame_idx) ∧
      (showsOverlay 360 640 (drawPose f.keypoints 360 640 (some e) f.frame_idx) ↔
        e.takeoff_frame ≤ f.frame_idx ∧ f.frame_idx ≤ e.landing_frame) ∧
      (noOverlay (drawPose f.keypoints 360 640 (some e) f.frame_idx) ↔
        ¬ (e.takeoff_frame ≤ f.frame_idx ∧ f.frame_idx ≤ e.landing_frame))) ∧
    ((∀ f ∈ frames, noOverlay (drawPose f.keypoints 360 640 (some e) f.frame_idx)) ↔
      ∀ f ∈ frames, ¬ (e.takeoff_frame ≤ f.frame_idx ∧ f.frame_idx ≤ e.landing_frame)) := by
  refine ⟨?_, ?_, ?_⟩
  · intro i f hf
    have hmem : f ∈ frames := by
      obtain ⟨hlt, hget⟩ := List.getElem?_eq_some.1 hf
      rw [← hget]
      exact List.getElem_mem hlt
    exact ⟨renderEffect_at frames i f (some e) hf, overlay_frame_aux f e (hkp f hmem)⟩
  · intro hall f hf
    exact (overlay_frame_aux f e (hkp f hf)).2.1 (hall f hf)
  · intro hall f hf
    exact (overlay_frame_aux f e (hkp f hf)).2.2 (hall f hf)

/-- Witness for C13, amended: the frames of `sampledFrames`, of `frame_idx` 0, 10 and 20,
with the event `takeoff = 10`, `landing = 10`, outside the positions 0 to 2: the second frame
is drawn with the overlay. -/
theorem overlay_by_frame_idx_witness :
    renderEffect sampledFrames (1 : ℕ) (some ⟨10, 10⟩) =
        some (drawPose (some (JointMap.toKeypoints fun _ => none)) 360 640 (some ⟨10, 10⟩) 10) ∧
      showsOverlay 360 640
        (drawPose (some (JointMap.toKeypoints fun _ => none)) 360 640 (some ⟨10, 10⟩) 10) :=
  ⟨((overlay_by_frame_idx sampledFrames ⟨10, 10⟩
      (by
        intro f hf
        simp only [sampledFrames, List.mem_cons, List.mem_singleton, List.not_mem_nil,
          or_false] at hf
        rcases hf with rfl | rfl | rfl <;> exact ⟨_, rfl⟩)).1 1
      ⟨10, 333, some (JointMap.toKeypoints fun _ => none)⟩ rfl).1,
    (((overlay_by_frame_idx sampledFrames ⟨10, 10⟩
      (by
        intro f hf
        simp only [sampledFrames, List.mem_cons, List.mem_singleton, List.not_mem_nil,
          or_false] at hf
        rcases hf with rfl | rfl | rfl <;> exact ⟨_, rfl⟩)).1 1
      ⟨10, 333, some (JointMap.toKeypoints fun _ => none)⟩ rfl).2.1).2 (by decide)⟩

/-- C14: for an event with `takeoff_frame > landing_frame` the overlay is drawn for no frame
index: the drawing has no `fillRect` and no `fillText`, with keypoints or without. -/
theorem overlay_never_for_reversed_event (m : JointMap) (w h : ℚ) (e : JumpEvent) (idx : ℤ)
    (hrev : e.landing_frame < e.takeoff_frame) :
    noOverlay (drawPose (some m.toKeypoints) w h (some e) idx) ∧
      ¬ showsOverlay w h (drawPose (some m.toKeypoints) w h (some e) idx) ∧
      drawPose none w h (some e) idx = .ok [.clearRect 0 0 w h] := by
  have hn : noOverlay (drawPose (some m.toKeypoints) w h (some e) idx) :=
    (overlay_iff_aux m w h e idx).2.2 (fun hc => by omega)
  exact ⟨hn, fun hs => not_showsOverlay_and_noOverlay w h _ hs hn, rfl⟩

/-- Witness for C14: the event `takeoff = 5`, `landing = 2` at frame index 3. -/
theorem overlay_never_for_reversed_event_witness :
    noOverlay (drawPose (some overconfidentShoulder.toKeypoints) 360 640 (some ⟨5, 2⟩) 3) ∧
      ¬ showsOverlay 360 640
        (drawPose (some overconfidentShoulder.toKeypoints) 360 640 (some ⟨5, 2⟩) 3) ∧
      drawPose none 360 640 (some ⟨5, 2⟩) 3 = .ok [.clearRect 0 0 360 640] :=
  overlay_never_for_reversed_event overconfidentShoulder 360 640 ⟨5, 2⟩ 3 (by decide)

/-- C17: given no keypoints, `drawPose` makes exactly one call, the clear of the rectangle
`(0, 0, width, height)`: no segment, no marker and no overlay, for every event and every
frame index, also one inside the flight window of the event. -/
theorem drawPose_without_keypoints (w h : ℚ) (ev : Option JumpEvent) (idx : ℤ) :
    drawPose none w h ev idx = .ok [.clearRect 0 0 w h] ∧
      noOverlay (drawPose none w h ev idx) ∧
      ¬ showsOverlay w h (drawPose none w h ev idx) ∧
      ∀ e : JumpEvent, e.takeoff_frame ≤ idx → idx ≤ e.landing_frame →
        drawPose none w h (some e) idx = .ok [.clearRect 0 0 w h] := by
  have hn : noOverlay (drawPose none w h ev idx) :=
    ⟨[.clearRect 0 0 w h], rfl, fun op hop => by
      rw [List.mem_singleton] at hop
      subst hop
      simp⟩
  exact ⟨rfl, hn, fun hs => not_showsOverlay_and_noOverlay w h _ hs hn, fun _ _ _ => rfl⟩


/-! ## Claims on the order of frames -/

/-- C15, as stated, fails: with 3 frames, the accepted tick taken at index 2 lowers the index
to 0. -/
theorem clock_step_lowers_index_at_end :
    (run (mount 3) [.click, .frame 40, .frame 80]).currentFrame = 2 ∧
      (run (mount 3) [.click, .frame 40, .frame 80, .frame 120]).currentFrame = 0 ∧
      (run (mount 3) [.click, .frame 40, .frame 80, .frame 120]).currentFrame <
        (run (mount 3) [.click, .frame 40, .frame 80]).currentFrame := by
  decide!

/-- C15, amended: an animation frame leaves the viewer as it is, or advances the index by
exactly one (when the index is below `N-1`), or, taken at an index of `N-1` or more, sets the
index to 0 and stops playback; so below `N-1` no clock step lowers the index, and the
play/pause button never moves it: besides a seek, only the reset at the end of the sequence
lowers the index. -/
theorem clock_step_advances_or_resets (v : Viewer) (t : ℚ) :
    (step v (.frame t) = v ∨
      ((step v (.frame t)).currentFrame = v.currentFrame + 1 ∧
        (step v (.frame t)).playing = true ∧ v.currentFrame < (v.totalFrames : ℤ) - 1) ∨
      ((step v (.frame t)).currentFrame = 0 ∧ (step v (.frame t)).playing = false ∧
        (v.totalFrames : ℤ) - 1 ≤ v.currentFrame)) ∧
    (v.currentFrame < (v.totalFrames : ℤ) - 1 →
      v.currentFrame ≤ (step v (.frame t)).currentFrame) ∧
    (step v .click).currentFrame = v.currentFrame := by
  have hmain : step v (.frame t) = v ∨
      ((step v (.frame t)).currentFrame = v.currentFrame + 1 ∧
        (step v (.frame t)).playing = true ∧ v.currentFrame < (v.totalFrames : ℤ) - 1) ∨
      ((step v (.frame t)).currentFrame = 0 ∧ (step v (.frame t)).playing = false ∧
        (v.totalFrames : ℤ) - 1 ≤ v.currentFrame) := by
    by_cases hs : step v (.frame t) = v
    · exact Or.inl hs
    · obtain ⟨hv, ht⟩ := step_frame_ne v t hs
      right
      rw [step_frame_accept v t hv ht]
      by_cases hlast : (v.totalFrames : ℤ) - 1 ≤ v.currentFrame
      · right; simp [hlast]
      · left; simp only [hlast, if_false]; exact ⟨trivial, trivial, by omega⟩
  refine ⟨hmain, ?_, ?_⟩
  · intro hlt
    rcases hmain with h | h | h
    · rw [h]
    · omega
    · omega
  · simp only [step]
    split <;> rfl

/-- C16: the play/pause button keeps the position. In the playing state it gives the stopped
state with the index, and everything but the flag, unchanged; in either state it inverts
`playing` and leaves the index and the sequence as they are (starting to play also starts a
run of the clock, with its baseline at 0). -/
theorem toggle_keeps_index (v : Viewer) (hN : 1 ≤ v.totalFrames) :
    (step v .click).currentFrame = v.currentFrame ∧
      (step v .click).totalFrames = v.totalFrames ∧
      (step v .click).playing = !v.playing ∧
      (v.playing = true → step v .click = { v with playing := false }) := by
  have hne : v.totalFrames ≠ 0 := by omega
  simp only [step, hne, if_false, togglePlaying]
  refine ⟨trivial, trivial, trivial, ?_⟩
  intro hp
  simp [hp]

/-- Witness for C16: a pause while playing at index 2 of 6 frames. -/
theorem toggle_keeps_index_witness :
    (step ⟨6, 2, true, 40⟩ .click).currentFrame = 2 ∧
      (step ⟨6, 2, true, 40⟩ .click).totalFrames = 6 ∧
      (step ⟨6, 2, true, 40⟩ .click).playing = !true ∧
      (true = true → step ⟨6, 2, true, 40⟩ .click = ⟨6, 2, false, 40⟩) :=
  toggle_keeps_index ⟨6, 2, true, 40⟩ (by decide)


theorem acceptedTicks_paced (ts : List ℚ) :
    ∀ (v : Viewer) (k : ℕ), v.playing = true → v.currentFrame + k = v.totalFrames → 1 ≤ k →
      List.Chain (fun a b : ℚ => 1000 / 30 ≤ b - a) v.lastTime ts →
      acceptedTicks v ts = ts.take k := by
  induction ts with
  | nil => intro v k _ _ _ _; simp [acceptedTicks]
  | cons t ts ih =>
    intro v k hv hk h1 hch
    rw [List.chain_cons] at hch
    have ht : (100 : ℚ) / 3 ≤ t - v.lastTime := by
      have := hch.1
      norm_num at this ⊢
      exact this
    have hne := step_frame_accept_ne v t hv ht
    have hacc := step_frame_accept v t hv ht
    have hl : (step v (.frame t)).lastTime = t := by rw [hacc]
    obtain ⟨k, rfl⟩ : ∃ j, k = j + 1 := ⟨k - 1, by omega⟩
    simp only [acceptedTicks, hne, if_false, List.take_succ_cons]
    congr 1
    by_cases hlast : (v.totalFrames : ℤ) - 1 ≤ v.currentFrame
    · have hstop : (step v (.frame t)).playing = false := by rw [hacc]; simp [hlast]
      have hk0 : k = 0 := by push_cast at hk; omega
      rw [(run_frames_stopped _ ts hstop).2, hk0, List.take_zero]
    · have hplay : (step v (.frame t)).playing = true := by rw [hacc]; simp [hlast]
      have hcur : (step v (.frame t)).currentFrame = v.currentFrame + 1 := by
        rw [hacc]; simp [hlast]
      have htot : (step v (.frame t)).totalFrames = v.totalFrames := by rw [hacc]
      apply ih (step v (.frame t)) k hplay
      · rw [hcur, htot]; push_cast at hk; omega
      · push_cast at hk; omega
      · rw [hl]; exact hch.2

/-- C20, as stated, fails: with 2 frames and ticks at 40 and 80 ms, no faster than the
nominal rate, the second tick is accepted but does not advance the index by one: it takes
the index from 1 to 0. -/
theorem paced_tick_resets_at_end :
    (1000 : ℚ) / 30 ≤ 40 - 0 ∧ (1000 : ℚ) / 30 ≤ 80 - 40 ∧
      (run (mount 2) [.click, .frame 40]).currentFrame = 1 ∧
      (run (mount 2) [.click, .frame 40, .frame 80]).currentFrame = 0 ∧
      (run (mount 2) [.click, .frame 40, .frame 80]).currentFrame ≠
        (run (mount 2) [.click, .frame 40]).currentFrame + 1 := by
  decide!

/-- C20, amended: when the host ticks no faster than the nominal rate, every tick delivered
while the viewer plays is accepted; `k` such ticks from index `c` with `c + k < N` leave the
index at `c + k`, one more per tick, so no frame is skipped or shown twice; the tick taken at
index `N-1` is accepted too, sets the index to 0 and stops playback, and no tick is accepted
after it. -/
theorem paced_ticks_all_accepted (v : Viewer) (ts : List ℚ) (hplay : v.playing = true)
    (h0 : 0 ≤ v.currentFrame) (hN : v.currentFrame ≤ (v.totalFrames : ℤ) - 1)
    (hpaced : List.Chain (fun a b : ℚ => 1000 / 30 ≤ b - a) v.lastTime ts) :
    acceptedTicks v ts = ts.take ((v.totalFrames : ℤ) - v.currentFrame).toNat ∧
    (v.currentFrame + ts.length < v.totalFrames →
      acceptedTicks v ts = ts ∧
      (run v (ts.map .frame)).currentFrame = v.currentFrame + ts.length ∧
      (run v (ts.map .frame)).playing = true) ∧
    ((v.totalFrames : ℤ) ≤ v.currentFrame + ts.length →
      (run v (ts.map .frame)).currentFrame = 0 ∧
      (run v (ts.map .frame)).playing = false) := by
  have hk : v.currentFrame + (((v.totalFrames : ℤ) - v.currentFrame).toNat : ℕ) =
      v.totalFrames := by
    rw [Int.toNat_of_nonneg (by omega)]; ring
  have hk1 : 1 ≤ ((v.totalFrames : ℤ) - v.currentFrame).toNat := by omega
  have hacc := acceptedTicks_paced ts v _ hplay hk hk1 hpaced
  have hfrom := autoplay_from ts v hplay h0 hN
  rw [hacc] at hfrom
  refine ⟨hacc, ?_, ?_⟩
  · intro hlt
    have hle : ts.length ≤ ((v.totalFrames : ℤ) - v.currentFrame).toNat := by omega
    have htake : ts.take ((v.totalFrames : ℤ) - v.currentFrame).toNat = ts :=
      List.take_of_length_le hle
    rw [htake] at hfrom
    exact ⟨by rw [hacc, htake], hfrom.1 hlt⟩
  · intro hge
    have hle : ((v.totalFrames : ℤ) - v.currentFrame).toNat ≤ ts.length := by omega
    have hlen : (ts.take ((v.totalFrames : ℤ) - v.currentFrame).toNat).length =
        ((v.totalFrames : ℤ) - v.currentFrame).toNat := by
      rw [List.length_take]; omega
    rw [hlen] at hfrom
    exact hfrom.2.1 hk

/-- Witness for C20, amended: 3 frames played from the start under ticks at 40 and 80 ms. -/
theorem paced_ticks_all_accepted_witness :
    acceptedTicks (step (mount 3) .click) [40, 80] = [40, 80] ∧
      (run (step (mount 3) .click) ([40, 80].map .frame)).currentFrame =
        (step (mount 3) .click).currentFrame + ([40, 80] : List ℚ).length ∧
      (run (step (mount 3) .click) ([40, 80].map .frame)).playing = true :=
  (paced_ticks_all_accepted (step (mount 3) .click) [40, 80] (by decide) (by decide)
    (by decide)
    (List.Chain.cons (by decide!) (List.Chain.cons (by decide!) List.Chain.nil))).2.1
    (by decide)


/-! ## Claims on validation and polling -/

theorem validate_loaded_errors (file : VideoFile) (video : VideoMetadata) :
    (validate (some file) (.loadedmetadata video)).errors =
      (if (file.size : ℚ) / (1024 * 1024) > MAX_SIZE_MB then
          [ValidationMessage.fileTooLarge ((file.size : ℚ) / (1024 * 1024))] else []) ++
      (if SUPPORTED_FORMATS.contains file.type then [] else [.unsupportedFormat file.type]) ++
      (if min video.videoWidth video.videoHeight < MIN_HEIGHT ∨
          max video.videoWidth video.videoHeight < MIN_WIDTH then
          [.resolutionTooLow video.videoWidth video.videoHeight] else []) ++
      (if video.duration < MIN_DURATION_SEC then [.tooShort video.duration] else []) := by
  simp only [validate]
  split_ifs <;> rfl

theorem validate_loaded_ok (file : VideoFile) (video : VideoMetadata) :
    (validate (some file) (.loadedmetadata video)).ok =
      decide ((validate (some file) (.loadedmetadata video)).errors = []) := by
  simp only [validate, List.length_eq_zero]

theorem validate_loaded_warnings (file : VideoFile) (video : VideoMetadata) :
    (validate (some file) (.loadedmetadata video)).warnings =
      if video.duration > MAX_DURATION_SEC then [.longVideo video.duration] else [] := by
  simp only [validate]


theorem ite_singleton_eq_nil {α : Type} (c : Prop) [Decidable c] (a : α) :
    (if c then [a] else []) = [] ↔ ¬ c := by
  by_cases hc : c <;> simp [hc]

theorem ite_nil_singleton_eq_nil {α : Type} (c : Prop) [Decidable c] (a : α) :
    (if c then [] else [a]) = [] ↔ c := by
  by_cases hc : c <;> simp [hc]

theorem validate_loaded_errors_nil (file : VideoFile) (video : VideoMetadata) :
    (validate (some file) (.loadedmetadata video)).errors = [] ↔
      file.size ≤ 500 * 1024 * 1024 ∧
      file.type ∈ ["video/mp4", "video/quicktime", "video/avi", "video/webm"] ∧
      480 ≤ min video.videoWidth video.videoHeight ∧
      854 ≤ max video.videoWidth video.videoHeight ∧
      1 / 2 ≤ video.duration := by
  have hsize : ¬ ((file.size : ℚ) / (1024 * 1024) > MAX_SIZE_MB) ↔
      file.size ≤ 500 * 1024 * 1024 := by
    rw [gt_iff_lt, not_lt, MAX_SIZE_MB, div_le_iff₀ (by norm_num)]
    constructor
    · intro hle
      have : (file.size : ℚ) ≤ ((500 * 1024 * 1024 : ℕ) : ℚ) := by push_cast; linarith
      exact_mod_cast this
    · intro hle
      have : (file.size : ℚ) ≤ ((500 * 1024 * 1024 : ℕ) : ℚ) := by exact_mod_cast hle
      push_cast at this; linarith
  have hfmt : SUPPORTED_FORMATS.contains file.type = true ↔
      file.type ∈ ["video/mp4", "video/quicktime", "video/avi", "video/webm"] := by
    simp [SUPPORTED_FORMATS]
  have hres : ¬ (min video.videoWidth video.videoHeight < MIN_HEIGHT ∨
      max video.videoWidth video.videoHeight < MIN_WIDTH) ↔
      480 ≤ min video.videoWidth video.videoHeight ∧
        854 ≤ max video.videoWidth video.videoHeight := by
    simp only [MIN_HEIGHT, MIN_WIDTH, not_or, not_lt]
  have hdur : ¬ (video.duration < MIN_DURATION_SEC) ↔ 1 / 2 ≤ video.duration := by
    simp only [MIN_DURATION_SEC, not_lt]
  rw [validate_loaded_errors]
  simp only [List.append_eq_nil, ite_singleton_eq_nil, ite_nil_singleton_eq_nil, hsize, hfmt,
    hres, hdur, and_assoc]

/-- C18: once the metadata of the video has loaded, `validate` resolves with `ok = true` if
and only if the file has at most 500 MB (of 1024 × 1024 bytes), its MIME type is one of
`video/mp4`, `video/quicktime`, `video/avi`, `video/webm`, the smaller side is at least 480,
the larger side at least 854 and the duration at least 0.5 s; `ok` is true exactly when
`errors` is empty; a duration above 60 s gives one warning and the errors and `ok` of a
60 s video. -/
theorem validate_ok_iff (file : VideoFile) (video : VideoMetadata) :
    ((validate (some file) (.loadedmetadata video)).ok = true ↔
      file.size ≤ 500 * 1024 * 1024 ∧
      file.type ∈ ["video/mp4", "video/quicktime", "video/avi", "video/webm"] ∧
      480 ≤ min video.videoWidth video.videoHeight ∧
      854 ≤ max video.videoWidth video.videoHeight ∧
      1 / 2 ≤ video.duration) ∧
    ((validate (some file) (.loadedmetadata video)).ok = true ↔
      (validate (some file) (.loadedmetadata video)).errors = []) ∧
    (validate (some file) (.loadedmetadata video)).warnings =
      (if 60 < video.duration then [.longVideo video.duration] else []) ∧
    (60 < video.duration →
      (validate (some file) (.loadedmetadata video)).errors =
        (validate (some file) (.loadedmetadata { video with duration := 60 })).errors ∧
      (validate (some file) (.loadedmetadata video)).ok =
        (validate (some file) (.loadedmetadata { video with duration := 60 })).ok) := by
  have hok : (validate (some file) (.loadedmetadata video)).ok = true ↔
      (validate (some file) (.loadedmetadata video)).errors = [] := by
    rw [validate_loaded_ok, decide_eq_true_iff]
  refine ⟨?_, hok, ?_, ?_⟩
  · rw [hok, validate_loaded_errors_nil]
  · rw [validate_loaded_warnings]; rfl
  · intro hlong
    have herr : (validate (some file) (.loadedmetadata video)).errors =
        (validate (some file) (.loadedmetadata { video with duration := 60 })).errors := by
      rw [validate_loaded_errors, validate_loaded_errors]
      have h1 : ¬ (video.duration < MIN_DURATION_SEC) := by
        rw [MIN_DURATION_SEC]; intro h; linarith
      have h2 : ¬ ((60 : ℚ) < MIN_DURATION_SEC) := by rw [MIN_DURATION_SEC]; norm_num
      simp only [h1, h2, if_false]
    refine ⟨herr, ?_⟩
    rw [validate_loaded_ok, validate_loaded_ok, herr]


theorem poll_running (s : JobHook) (job : Job) (result : Except String String)
    (hc : s.cancelled = false) (hr : job.running) :
    poll s (.ok job) result =
      if s.pollCount < 120 then
        { s with
          timer := some 2000
          status := job.status
          step := orElse job.step ""
          pollCount := s.pollCount + 1 }
      else
        { s with
          timer := none
          status := job.status
          step := orElse job.step ""
          error := some "Analysis timed out. Please try again."
          isLoading := false } := by
  simp only [poll, hc, hr.1, hr.2, MAX_POLLS, POLL_INTERVAL_MS, Bool.false_eq_true, if_false]

theorem pollLoop_running (jobs : List (Except String Job)) (result : Except String String) :
    ∀ (s : JobHook) (k : ℕ), s.cancelled = false → s.pollCount + k = 120 →
      (∀ j ∈ jobs, ∃ job, j = .ok job ∧ job.running) →
      (pollLoop s result jobs).2.1 = min jobs.length (k + 1) ∧
      (pollLoop s result jobs).2.2 = List.replicate (min jobs.length k) 2000 ∧
      (k + 1 ≤ jobs.length →
        (pollLoop s result jobs).1.error = some "Analysis timed out. Please try again." ∧
        (pollLoop s result jobs).1.isLoading = false ∧
        (pollLoop s result jobs).1.timer = none ∧
        (pollLoop s result jobs).1.pollCount = 120) := by
  induction jobs with
  | nil => intro s k _ _ _; simp [pollLoop]
  | cons j js ih =>
    intro s k hc hk hall
    obtain ⟨job, rfl, hr⟩ := hall j (List.mem_cons_self j js)
    have hjs : ∀ j ∈ js, ∃ job, j = .ok job ∧ job.running :=
      fun j hj => hall j (List.mem_cons_of_mem _ hj)
    have hp := poll_running s job result hc hr
    by_cases hlt : s.pollCount < 120
    · rw [if_pos hlt] at hp
      obtain ⟨k, rfl⟩ : ∃ i, k = i + 1 := ⟨k - 1, by omega⟩
      have hc' : (poll s (.ok job) result).cancelled = false := by rw [hp]; exact hc
      have hk' : (poll s (.ok job) result).pollCount + k = 120 := by
        rw [hp]; show s.pollCount + 1 + k = 120; omega
      have h := ih (poll s (.ok job) result) k hc' hk' hjs
      have htimer : (poll s (.ok job) result).timer = some 2000 := by rw [hp]
      have hloop : pollLoop s result (.ok job :: js) =
          ((pollLoop (poll s (.ok job) result) result js).1,
            (pollLoop (poll s (.ok job) result) result js).2.1 + 1,
            2000 :: (pollLoop (poll s (.ok job) result) result js).2.2) := by
        simp only [pollLoop, htimer]
      rw [hloop]
      simp only [List.length_cons]
      refine ⟨?_, ?_, ?_⟩
      · rw [h.1]; omega
      · rw [h.2.1, ← List.replicate_succ]; congr 1; omega
      · intro hlen; exact h.2.2 (by omega)
    · rw [if_neg hlt] at hp
      have hk0 : k = 0 := by omega
      subst hk0
      have htimer : (poll s (.ok job) result).timer = none := by rw [hp]
      have hloop : pollLoop s result (.ok job :: js) = (poll s (.ok job) result, 1, []) := by
        simp only [pollLoop, htimer]
      rw [hloop, hp]
      refine ⟨?_, ?_, fun _ => ⟨rfl, rfl, rfl, ?_⟩⟩
      · simp only [List.length_cons]; omega
      · simp
      · show s.pollCount = 120; omega

/-- C19: for a job whose status answers are never `done` or `failed`, the hook makes a
bounded number of status requests: at most 121, the first and at most 120 re-polls, each set
2000 ms after the answer before it, 240000 ms (4 minutes) of waiting at most; the poll after
the 120th re-poll sets the error `Analysis timed out. Please try again.` and `isLoading` to
false, and sets no timeout. -/
theorem polling_is_bounded (jobs : List (Except String Job)) (result : Except String String)
    (hrun : ∀ j ∈ jobs, ∃ job, j = .ok job ∧ job.running) :
    (pollLoop JobHook.initial result jobs).2.1 ≤ 121 ∧
    (pollLoop JobHook.initial result jobs).2.2.length ≤ 120 ∧
    (∀ d ∈ (pollLoop JobHook.initial result jobs).2.2, d = 2000) ∧
    (pollLoop JobHook.initial result jobs).2.2.sum ≤ 240000 ∧
    (121 ≤ jobs.length →
      (pollLoop JobHook.initial result jobs).2.1 = 121 ∧
      (pollLoop JobHook.initial result jobs).2.2 = List.replicate 120 2000 ∧
      (pollLoop JobHook.initial result jobs).1.error =
        some "Analysis timed out. Please try again." ∧
      (pollLoop JobHook.initial result jobs).1.isLoading = false ∧
      (pollLoop JobHook.initial result jobs).1.timer = none) := by
  obtain ⟨h1, h2, h3⟩ := pollLoop_running jobs result JobHook.initial 120 rfl rfl hrun
  refine ⟨by rw [h1]; omega, by rw [h2, List.length_replicate]; omega, ?_, ?_, ?_⟩
  · intro d hd
    rw [h2] at hd
    exact List.eq_of_mem_replicate hd
  · rw [h2, List.sum_replicate, smul_eq_mul]
    have : min jobs.length 120 ≤ 120 := min_le_right _ _
    omega
  · intro hlen
    have hmin : min jobs.length 120 = 120 := by omega
    refine ⟨by rw [h1]; omega, by rw [h2, hmin], (h3 hlen).1, (h3 hlen).2.1, (h3 hlen).2.2.1⟩

/-- Witness for C19: 125 answers `processing`. The 121st poll times the analysis out. -/
theorem polling_is_bounded_witness :
    (pollLoop JobHook.initial (.ok "") (List.replicate 125 (.ok ⟨"processing", none, none⟩))).2.1 =
        121 ∧
      (pollLoop JobHook.initial (.ok "")
          (List.replicate 125 (.ok ⟨"processing", none, none⟩))).1.error =
        some "Analysis timed out. Please try again." :=
  ⟨((polling_is_bounded (List.replicate 125 (.ok ⟨"processing", none, none⟩)) (.ok "")
      (fun _ hj => ⟨_, List.eq_of_mem_replicate hj, by decide, by decide⟩)).2.2.2.2 (by simp)).1,
    ((polling_is_bounded (List.replicate 125 (.ok ⟨"processing", none, none⟩)) (.ok "")
      (fun _ hj => ⟨_, List.eq_of_mem_replicate hj, by decide, by decide⟩)).2.2.2.2 (by simp)).2.2.1⟩


/-! ## Claims on the index range and on the job list -/

theorem step_keeps_index_in_range (v : Viewer) (e : Event) (hN : 1 ≤ v.totalFrames)
    (h0 : 0 ≤ v.currentFrame) (h1 : v.currentFrame ≤ (v.totalFrames : ℤ) - 1)
    (he : ∀ n, e ≠ .newFrames n)
    (hk : ∀ k, e = .scrub k → 0 ≤ k ∧ k ≤ (v.totalFrames : ℤ) - 1) :
    (step v e).totalFrames = v.totalFrames ∧ 0 ≤ (step v e).currentFrame ∧
      (step v e).currentFrame ≤ (v.totalFrames : ℤ) - 1 := by
  have hne : v.totalFrames ≠ 0 := by omega
  cases e with
  | click =>
    simp only [step, hne, if_false, togglePlaying]
    exact ⟨trivial, h0, h1⟩
  | scrub k =>
    obtain ⟨hk0, hk1⟩ := hk k rfl
    simp only [step, hne, if_false, seek]
    split_ifs
    · exact ⟨rfl, h0, h1⟩
    · exact ⟨rfl, hk0, hk1⟩
  | frame t =>
    by_cases hs : step v (.frame t) = v
    · rw [hs]; exact ⟨rfl, h0, h1⟩
    · obtain ⟨hv, ht⟩ := step_frame_ne v t hs
      rw [step_frame_accept v t hv ht]
      refine ⟨rfl, ?_, ?_⟩ <;> simp only <;> split_ifs <;> omega
  | newFrames n => exact (he n rfl).elim

/-- C21: for `N ≥ 1`, every state reached from the mounted viewer (index 0, stopped) by
clicks on play/pause, seeks to targets in `[0, N-1]` and clock ticks has
`0 ≤ currentFrame ≤ N-1`. -/
theorem index_stays_in_range (N : ℕ) (events : List Event) (hN : 1 ≤ N)
    (hev : ∀ e ∈ events, ∀ n, e ≠ .newFrames n)
    (hseek : ∀ e ∈ events, ∀ k, e = .scrub k → 0 ≤ k ∧ k ≤ (N : ℤ) - 1) :
    0 ≤ (run (mount N) events).currentFrame ∧
      (run (mount N) events).currentFrame ≤ (N : ℤ) - 1 ∧
      (run (mount N) events).totalFrames = N := by
  have hgen : ∀ (es : List Event) (v : Viewer), v.totalFrames = N → 0 ≤ v.currentFrame →
      v.currentFrame ≤ (N : ℤ) - 1 → (∀ e ∈ es, ∀ n, e ≠ .newFrames n) →
      (∀ e ∈ es, ∀ k, e = .scrub k → 0 ≤ k ∧ k ≤ (N : ℤ) - 1) →
      0 ≤ (run v es).currentFrame ∧ (run v es).currentFrame ≤ (N : ℤ) - 1 ∧
        (run v es).totalFrames = N := by
    intro es
    induction es with
    | nil => intro v ht h0 h1 _ _; exact ⟨h0, h1, ht⟩
    | cons e es ih =>
      intro v ht h0 h1 hes hks
      have hstep := step_keeps_index_in_range v e (by omega) h0 (by rw [ht]; exact h1)
        (hes e (List.mem_cons_self e es))
        (by rw [ht]; exact hks e (List.mem_cons_self e es))
      rw [ht] at hstep
      rw [run_cons]
      exact ih (step v e) hstep.1 hstep.2.1 hstep.2.2
        (fun e' he' => hes e' (List.mem_cons_of_mem e he'))
        (fun e' he' => hks e' (List.mem_cons_of_mem e he'))
  exact hgen events (mount N) rfl (le_refl _) (by show (0 : ℤ) ≤ (N : ℤ) - 1; omega) hev hseek

/-- Witness for C21: 3 frames; play, three accepted ticks, a seek to the last frame, play and
one more tick. -/
theorem index_stays_in_range_witness :
    0 ≤ (run (mount 3)
        [.click, .frame 40, .frame 80, .frame 120, .scrub 2, .click, .frame 40]).currentFrame ∧
      (run (mount 3)
        [.click, .frame 40, .frame 80, .frame 120, .scrub 2, .click, .frame 40]).currentFrame ≤
        ((3 : ℕ) : ℤ) - 1 ∧
      (run (mount 3)
        [.click, .frame 40, .frame 80, .frame 120, .scrub 2, .click, .frame 40]).totalFrames =
        3 :=
  index_stays_in_range 3 [.click, .frame 40, .frame 80, .frame 120, .scrub 2, .click, .frame 40]
    (by decide) (by simp) (by simp)

/-- C22: after `addJobId(j)` the list is the first 20 entries of `j` followed by the previous
entries other than `j`, in their previous order: `j` is first and occurs exactly once, the
list has at most 20 entries, and it has no duplicates whenever the previous list had none;
the other fields of the store are unchanged. -/
theorem addJobId_list (store : UserStore) (j : String) :
    (addJobId store j).recentJobIds =
        (j :: store.recentJobIds.filter (fun id => decide (id ≠ j))).take 20 ∧
      (addJobId store j).recentJobIds.head? = some j ∧
      (addJobId store j).recentJobIds.count j = 1 ∧
      (addJobId store j).recentJobIds.length ≤ 20 ∧
      (store.recentJobIds.Nodup → (addJobId store j).recentJobIds.Nodup) ∧
      (addJobId store j).userId = store.userId ∧
      (addJobId store j).displayName = store.displayName := by
  have hfilter : store.recentJobIds.filter (fun id => id != j) =
      store.recentJobIds.filter (fun id => decide (id ≠ j)) := by
    congr 1; funext id; by_cases h : id = j <;> simp [h]
  have hlist : (addJobId store j).recentJobIds =
      j :: (store.recentJobIds.filter (fun id => decide (id ≠ j))).take 19 := by
    simp only [addJobId, hfilter, List.take_succ_cons]
  have hnot : j ∉ (store.recentJobIds.filter (fun id => decide (id ≠ j))).take 19 := by
    intro hmem
    have := (List.mem_filter.1 (List.mem_of_mem_take hmem)).2
    simp at this
  refine ⟨?_, ?_, ?_, ?_, ?_, rfl, rfl⟩
  · rw [hlist, List.take_succ_cons]
  · rw [hlist]; rfl
  · rw [hlist, List.count_cons_self, List.count_eq_zero_of_not_mem hnot]
  · rw [hlist, List.length_cons, List.length_take]; omega
  · intro hnd
    rw [hlist, List.nodup_cons]
    exact ⟨hnot, (hnd.sublist (List.filter_sublist _)).sublist (List.take_sublist _ _)⟩

end PoseReplay
